import Mathlib

/-!
# Lazy `mmap` for xv6: a shallow embedding of `mmap.c` and of the page-fault path of `trap.c`

The kernel state is passed explicitly.  Region descriptors live in a heap
(`kstate.heap`, a total map from kernel addresses to `mmap_region` records)
and are linked through their `next` field exactly as in the C code; the null
pointer is the address `0`.  Every loop of the source is a structurally
recursive function on a `fuel` argument (`none` = fuel exhausted), because a
pointer-linked list in an arbitrary heap may be cyclic.

C integers: `uint` and pointers are naturals below `2^32`, with the wrap-around
written out (`u32`, `u32add`); `int` values are mathematical integers.

Calls to code outside `mmap.c`/`trap.c` (allocator, file layer, page-table
layer) are recorded, in program order, in `kstate.trace`; where their result or
their effect on memory matters to the code here it is modelled as well.
`cprintf` diagnostics are not modelled.
-/

namespace Xv6Mmap

/-! ## Constants and address arithmetic (headers `mmu.h`, `memlayout.h`, `mman.h`, `traps.h`, `param.h`) -/

/-- Modelled from the spec: `mmu.h` is not among the sources; the page size is 4096 bytes. -/
def PGSIZE : Nat := 4096

/-- Modelled from the spec: `memlayout.h` is not among the sources; `KERNBASE` is the
kernel-reserved boundary of the 32-bit address space, `0x80000000` in xv6. -/
def KERNBASE : Nat := 0x80000000

/-- The constant `PROT_WRITE` of `mman.h`. -/
def PROT_WRITE : Int := 1

/-- The constant `MAP_ANONYMOUS` of `mman.h`. -/
def MAP_ANONYMOUS : Int := 0

/-- The constant `MAP_FILE` of `mman.h`. -/
def MAP_FILE : Int := 1

/-- Modelled from the spec: `mmu.h` is not among the sources; present bit of a page-table entry. -/
def PTE_P : Nat := 0x001

/-- Modelled from the spec: `mmu.h` is not among the sources; write-permission bit of an entry. -/
def PTE_W : Nat := 0x002

/-- Modelled from the spec: `mmu.h` is not among the sources; user-permission bit of an entry. -/
def PTE_U : Nat := 0x004

/-- Modelled from the spec: `mmu.h` is not among the sources; the hardware dirty indicator
of a page-table entry (bit 6 on x86). -/
def PTE_D : Nat := 0x040

/-- Modelled from the spec: `traps.h` is not among the sources; the write-vs-read bit of the
hardware page-fault error code (bit 1 on x86). -/
def T_PGFLT_W : Nat := 0x2

/-- Modelled from the spec: `param.h` is not among the sources; number of slots of the
per-process open-file table (16 in xv6). -/
def NOFILE : Nat := 16

/-- Conversion of a C `int` to `uint` (also the value of a 32-bit pointer): reduction mod `2^32`. -/
def u32 (x : Int) : Nat := (x % 4294967296).toNat

/-- 32-bit unsigned addition (also `void*` arithmetic, which gcc scales by 1). -/
def u32add (a b : Nat) : Nat := (a + b) % 4294967296

/-- 32-bit unsigned subtraction. -/
def u32sub (a b : Nat) : Nat := (a + (4294967296 - b % 4294967296)) % 4294967296

/-- Modelled from the spec: macro `PGROUNDDOWN` of `mmu.h` (`a & ~(PGSIZE-1)`), rounding
down to a page boundary. -/
def PGROUNDDOWN (a : Nat) : Nat := a - a % PGSIZE

/-- Modelled from the spec: macro `PGROUNDUP` of `mmu.h`, rounding up to a page boundary
(32-bit). -/
def PGROUNDUP (a : Nat) : Nat := PGROUNDDOWN (u32add a (PGSIZE - 1))

/-- Modelled from the spec: macro `PDX` of `mmu.h`, the page-directory index of an address. -/
def PDX (va : Nat) : Nat := (va >>> 22) &&& 0x3FF

/-- Modelled from the spec: macro `PTX` of `mmu.h`, the page-table index of an address. -/
def PTX (va : Nat) : Nat := (va >>> 12) &&& 0x3FF

/-- Modelled from the spec: macro `PTE_ADDR` of `mmu.h`, the physical address held by an entry. -/
def PTE_ADDR (pte : Nat) : Nat := PGROUNDDOWN pte

/-- Modelled from the spec: macro `V2P` of `memlayout.h`, kernel virtual to physical address. -/
def V2P (a : Nat) : Nat := u32sub a KERNBASE

/-- The value `(void*)-1` that `mmap` returns on failure. -/
def MAP_FAILED : Nat := u32 (-1)

/-! ## Data model -/

/-- The region descriptor `mmap_region` (declared in `proc.h`), with the fields the code uses.
`len` is kept as the 32-bit word stored by `reg->len = length`; every use in the source
(`== length` against a `uint`, `addr + len`, the byte count of `fileread`) sees that word. -/
structure mmap_region where
  addr : Nat
  len : Nat
  prot : Int
  rtype : Int
  fd : Int
  offset : Int
  next : Nat
deriving DecidableEq

/-- A call to a function outside `mmap.c` and `trap.c`, with its arguments. -/
inductive Event where
  | kmalloc (ret : Nat)
  | kmfree (p : Nat)
  | filedup (f : Nat)
  | fileclose (f : Nat)
  | fileseek (f : Nat) (off : Int)
  | fileread (f : Nat) (dst : Nat) (n : Nat)
  | filewrite (f : Nat) (src : Nat) (n : Nat)
  | deallocuvm (oldsz newsz : Nat)
  | switchuvm
  | kalloc (ret : Nat)
  | kfree (mem : Nat)
  | mappages (va size pa perm : Nat)
  | panic_trap
  | panic_remap
deriving DecidableEq

/-- The trap frame fields read by `pagefault_handler`. -/
structure trapframe where
  trapno : Nat
  err : Nat
  cs : Nat
  eip : Nat
deriving DecidableEq

/-- Kernel state seen by the subsystem.  `sz`, `head`, `nregions`, `ofile`, `killed` and
`pgdir` are the fields of the current process (`myproc()`); `heap` is the memory handed
out by `kmalloc`; `pgtab` holds the page-table pages (physical base address, then index);
`kmem` holds the bytes of page frames (by kernel virtual address); `trace` is the log of
external calls.  `ofile` is indexed by a C `int`: slots outside `0..NOFILE-1` stand for the
memory around the array. -/
structure kstate where
  sz : Nat
  head : Nat
  nregions : Int
  ofile : Int → Nat
  killed : Int
  pgdir : Nat → Nat
  heap : Nat → mmap_region
  pgtab : Nat → Nat → Nat
  kmem : Nat → Nat
  trace : List Event

/-- What the environment contributes to one run of `pagefault_handler`: the frame returned
by `kalloc()` (`0` when memory is exhausted), the physical address of the page the
page-table layer obtains should it need a new page-table page (`0` when it cannot), and the
bytes the file layer delivers to `fileread`. -/
structure fault_env where
  mem : Nat
  tbl : Nat
  fdata : List Nat

/-! ## Region registry and mapping allocator (`mmap.c`) -/

/-- Record one external call. -/
def kstate.log (s : kstate) (e : Event) : kstate := { s with trace := s.trace ++ [e] }

/-- Modelled from the spec: `fdalloc` (`sysfile.c`) is not among the sources.  It places the
file in a fresh slot of the open-file table: the first of the `NOFILE` slots that is empty;
it returns the slot, or `-1` when every slot is taken. -/
def fdalloc (s : kstate) (f : Nat) : Int × kstate :=
  match (List.range NOFILE).find? (fun i => s.ofile (i : Int) = 0) with
  | some i => ((i : Int), { s with ofile := Function.update s.ofile (i : Int) f })
  | none => (-1, s)

/-- The collision loop of `mmap` (lines 118-132): `some (some (node, addr))` when the loop is
left with `node->next == 0`, `some none` when it returns through the `KERNBASE` test. -/
def mmap_scan (heap : Nat → mmap_region) (head bump : Nat) :
    Nat → Nat → Nat → Option (Option (Nat × Nat))
  | 0, _, _ => none
  | fuel + 1, node, addr =>
    if (heap node).next ≠ 0 then
      if addr = (heap node).addr then
        -- addr += PGROUNDDOWN(PGSIZE+length); node = p->head; then node = node->next
        mmap_scan heap head bump fuel (heap head).next (u32add addr bump)
      else if addr = KERNBASE ∨ addr > KERNBASE then
        some none
      else
        mmap_scan heap head bump fuel (heap node).next addr
    else some (some (node, addr))

/-- The end of `mmap` (lines 138-140): `p->nregions++; reg->addr = addr; return reg->addr`. -/
def mmap_finish (s : kstate) (reg addr : Nat) : Nat × kstate :=
  let s1 := { s with nregions := s.nregions + 1 }
  let s2 := { s1 with heap := Function.update s1.heap reg { s1.heap reg with addr := addr } }
  ((s2.heap reg).addr, s2)

/-- Linking phase of `mmap` (lines 109-140).  `PGROUNDDOWN(PGSIZE+length)` is computed on the
32-bit word of the `int` sum and added to the pointer mod `2^32`. -/
def mmap_link (s : kstate) (reg fuel addr : Nat) (length : Int) : Option (Nat × kstate) :=
  if s.nregions = 0 then
    some (mmap_finish { s with head := reg } reg addr)
  else
    let bump := PGROUNDDOWN (u32 (PGSIZE + length))
    let addr1 := if addr = (s.heap s.head).addr then u32add addr bump else addr
    match mmap_scan s.heap s.head bump fuel s.head addr1 with
    | none => none
    | some none => some (MAP_FAILED, s.log (Event.kmfree reg))
    | some (some (node, addr2)) =>
      let addr3 := if addr2 = (s.heap node).addr then u32add addr2 bump else addr2
      let s1 := { s with heap := Function.update s.heap node { s.heap node with next := reg } }
      some (mmap_finish s1 reg addr3)

/-- The system call `mmap` (lines 49-141).  `reg` is the pointer `kmalloc` returns (`0` on
failure); the block it points to holds whatever the heap held there.  The hint `addr` is
overwritten at line 69 before it is read. -/
def mmap (s : kstate) (reg fuel : Nat) (addr : Nat) (length prot flags fd offset : Int) :
    Option (Nat × kstate) :=
  let oldsz := s.sz
  let newsz := u32 (s.sz + length)
  let s1 := ({ s with sz := newsz }).log (Event.kmalloc reg)
  if reg = 0 then some (MAP_FAILED, s1)
  else
    let addr := PGROUNDDOWN oldsz
    let r0 : mmap_region :=
      { s1.heap reg with addr := addr, len := u32 length, rtype := flags,
                         offset := offset, prot := prot, next := 0 }
    let s2 := { s1 with heap := Function.update s1.heap reg r0 }
    if flags = MAP_ANONYMOUS then
      if fd ≠ -1 then some (MAP_FAILED, s2.log (Event.kmfree reg))
      else mmap_link s2 reg fuel addr length
    else if flags = MAP_FILE then
      if fd > -1 then
        let r := fdalloc s2 (s2.ofile fd)
        if r.1 < 0 then some (MAP_FAILED, r.2)
        else
          let s3 := r.2.log (Event.filedup (r.2.ofile r.1))
          let s4 := { s3 with heap := Function.update s3.heap reg { s3.heap reg with fd := r.1 } }
          mmap_link s4 reg fuel addr length
      else some (MAP_FAILED, s2.log (Event.kmfree reg))
    else mmap_link s2 reg fuel addr length

/-! ## Unmapper -/

/-- The function `delete_mmap_node` (lines 13-25). -/
def delete_mmap_node (s : kstate) (node prev : Nat) : kstate :=
  let s1 :=
    if node = s.head then
      if (s.heap s.head).next ≠ 0 then { s with head := (s.heap s.head).next }
      else { s with head := 0 }
    else { s with heap := Function.update s.heap prev { s.heap prev with next := (s.heap node).next } }
  s1.log (Event.kmfree node)

/-- Modelled from the spec: `deallocuvm` (`vm.c`) is not among the sources.  It returns
`oldsz` when `newsz >= oldsz`; otherwise it releases the resident pages whose page-aligned
address lies in `[PGROUNDUP(newsz), oldsz)` (their entries become `0`) and returns `newsz`. -/
def deallocuvm (s : kstate) (oldsz newsz : Nat) : Nat × kstate :=
  let s1 := s.log (Event.deallocuvm oldsz newsz)
  if newsz ≥ oldsz then (oldsz, s1)
  else
    (newsz, { s1 with pgtab := fun tb i =>
      if (List.range 1024).any (fun pdx =>
            decide (s.pgdir pdx &&& PTE_P ≠ 0 ∧ PTE_ADDR (s.pgdir pdx) = tb ∧ i < 1024 ∧
              PGROUNDUP newsz ≤ pdx * 4194304 + i * PGSIZE ∧ pdx * 4194304 + i * PGSIZE < oldsz ∧
              s.pgtab tb i &&& PTE_P ≠ 0))
      then 0 else s.pgtab tb i })

/-- The block shared by both matching branches of `munmap` (lines 163-170 and 182-189):
shrink the size counter, re-apply the address space, decrement the region count and, for a
file-backed region, close its descriptor and empty its slot. -/
def munmap_release (s : kstate) (node length : Nat) : kstate :=
  let r := deallocuvm s s.sz (u32sub s.sz length)
  let s1 := { r.2 with sz := r.1 }
  let s2 := s1.log Event.switchuvm
  let s3 := { s2 with nregions := s2.nregions - 1 }
  if (s3.heap node).rtype = MAP_FILE then
    let s4 := s3.log (Event.fileclose (s3.ofile (s3.heap node).fd))
    { s4 with ofile := Function.update s4.ofile (s4.heap node).fd 0 }
  else s3

/-- The search loop of `munmap` (lines 178-194).  After `delete_mmap_node(next, node)` the
loop goes on with `node = next; next = node->next`, reading the block just released; the
allocator is taken to leave the bytes of a released block as they are. -/
def munmap_scan (addr length : Nat) : Nat → kstate → Nat → Nat → Option kstate
  | 0, _, _, _ => none
  | fuel + 1, s, node, next =>
    if next ≠ 0 then
      let s1 :=
        if (s.heap next).addr = addr ∧ (s.heap next).len = length then
          delete_mmap_node (munmap_release s next length) next node
        else s
      munmap_scan addr length fuel s1 next (s1.heap next).next
    else some s

/-- The system call `munmap` (lines 146-196). -/
def munmap (s : kstate) (fuel : Nat) (addr length : Nat) : Option (Int × kstate) :=
  if addr = KERNBASE ∨ addr > KERNBASE ∨ length ≤ 0 then some (-1, s)
  else if s.nregions = 0 then some (-1, s)
  else
    let node := s.head
    let next := (s.heap s.head).next
    if (s.heap s.head).addr = addr ∧ (s.heap s.head).len = length then
      let s1 := munmap_release s s.head length
      some (0, delete_mmap_node s1 s1.head 0)
    else
      match munmap_scan addr length fuel s node next with
      | none => none
      | some s1 => some (-1, s1)

/-! ## Sync engine -/

/-- Modelled from the spec: `walkpgdir` (`vm.c`) is not among the sources.  Called with
`alloc = 0` it looks up the entry of `va`: when the page-directory entry is present it
returns the place of the entry (page-table page, index), otherwise the null pointer. -/
def walkpgdir (s : kstate) (va : Nat) : Option (Nat × Nat) :=
  if s.pgdir (PDX va) &&& PTE_P ≠ 0 then some (PTE_ADDR (s.pgdir (PDX va)), PTX va)
  else none

/-- The loop of `msync` (lines 213-230).  The test `if(PTE_D)` of line 219 is a test of the
constant. -/
def msync_scan (s : kstate) (start_addr length : Nat) : Nat → Nat → Option (Int × kstate)
  | 0, _ => none
  | fuel + 1, cursor =>
    if cursor ≠ 0 then
      if (walkpgdir s start_addr).isSome then
        if PTE_D ≠ 0 then
          let s1 := s.log (Event.fileseek (s.ofile (s.heap cursor).fd) (s.heap cursor).offset)
          let s2 := s1.log (Event.filewrite (s1.ofile (s1.heap cursor).fd) start_addr length)
          some (0, s2)
        else some (0, s)
      else msync_scan s start_addr length fuel (s.heap cursor).next
    else some (-1, s)

/-- The system call `msync` (lines 200-231). -/
def msync (s : kstate) (fuel : Nat) (start_addr length : Nat) : Option (Int × kstate) :=
  if s.nregions = 0 then some (-1, s)
  else msync_scan s start_addr length fuel s.head

/-! ## Fault resolver (`trap.c`) -/

/-- The region search of `pagefault_handler` (lines 38-51): `some (some cursor)` when the
loop is left through `break` (`valid == 1`), `some none` when the list is exhausted. -/
def fault_scan (s : kstate) (fault_addr err : Nat) : Nat → Nat → Option (Option Nat)
  | 0, _ => none
  | fuel + 1, cursor =>
    if cursor ≠ 0 then
      if (s.heap cursor).addr ≤ fault_addr ∧
          u32add (s.heap cursor).addr (s.heap cursor).len > fault_addr then
        if Int.land (s.heap cursor).prot PROT_WRITE ≠ 0 ∨ ¬ (err &&& T_PGFLT_W ≠ 0) then
          some (some cursor)
        else fault_scan s fault_addr err fuel (s.heap cursor).next
      else fault_scan s fault_addr err fuel (s.heap cursor).next
    else some none

/-- The escalation path of `pagefault_handler` (label `error`, lines 89-101), for the
running process (`myproc() != 0`): a fault from kernel mode halts the kernel, a fault from
user mode marks the process killed. -/
def fault_error (s : kstate) (tf : trapframe) : kstate :=
  if tf.cs &&& 3 = 0 then s.log Event.panic_trap
  else { s with killed := 1 }

/-- The library call `memset(mem, 0, PGSIZE)` of line 61 on the frame memory. -/
def memset_zero (s : kstate) (mem n : Nat) : kstate :=
  { s with kmem := fun a => if mem ≤ a ∧ a < mem + n then 0 else s.kmem a }

/-- Outcome of the page-table installer. -/
inductive mapres where
  | ok (s : kstate)
  | fail (s : kstate)
  | remap (s : kstate)

/-- Modelled from the spec: `mappages` (`vm.c`) is not among the sources.  For one page at a
page-aligned `va` it finds the page-table page of `va`, obtaining a zeroed one (`tbl`, `0`
when none can be had: failure, a negative result) when the directory entry is absent; it
halts the kernel when the entry of `va` is already present, and otherwise stores
`pa | perm | PTE_P` in it. -/
def mappages (s : kstate) (tbl va size pa perm : Nat) : mapres :=
  let s0 := s.log (Event.mappages va size pa perm)
  if s0.pgdir (PDX va) &&& PTE_P ≠ 0 then
    let tb := PTE_ADDR (s0.pgdir (PDX va))
    if s0.pgtab tb (PTX va) &&& PTE_P ≠ 0 then mapres.remap (s0.log Event.panic_remap)
    else
      let page := Function.update (s0.pgtab tb) (PTX va) (pa ||| perm ||| PTE_P)
      mapres.ok { s0 with pgtab := Function.update s0.pgtab tb page }
  else if tbl = 0 then mapres.fail s0
  else
    let page := Function.update (fun _ => 0) (PTX va) (pa ||| perm ||| PTE_P)
    mapres.ok { s0 with
      pgdir := Function.update s0.pgdir (PDX va) (tbl ||| PTE_P ||| PTE_W ||| PTE_U),
      pgtab := Function.update s0.pgtab tbl page }

/-- The effect of `fileread(f, mem, n)` on the frame memory: at most `n` of the delivered
bytes are stored from `mem` on. -/
def fileread_into (s : kstate) (mem n : Nat) (data : List Nat) : kstate :=
  { s with kmem := fun a =>
      if mem ≤ a ∧ a < mem + (data.take n).length then (data.take n).getD (a - mem) 0
      else s.kmem a }

/-- Lines 74-85 of `pagefault_handler`: population of a file-backed region.  The entry whose
dirty bit is cleared is reached through `PDX(cursor->addr)` and `PTX(cursor->addr)`. -/
def fault_populate (s : kstate) (env : fault_env) (cursor : Nat) : kstate :=
  if (s.heap cursor).rtype = MAP_FILE then
    if s.ofile (s.heap cursor).fd ≠ 0 then
      let s1 := s.log (Event.fileseek (s.ofile (s.heap cursor).fd) (s.heap cursor).offset)
      let s2 := (s1.log (Event.fileread (s1.ofile (s1.heap cursor).fd) env.mem
                  (s1.heap cursor).len))
      let s3 := fileread_into s2 env.mem (s2.heap cursor).len env.fdata
      let pde := s3.pgdir (PDX (s3.heap cursor).addr)
      let pgtab := PTE_ADDR pde
      let i := PTX (s3.heap cursor).addr
      let pte := s3.pgtab pgtab i &&& (4294967295 ^^^ PTE_D)
      { s3 with pgtab := Function.update s3.pgtab pgtab (Function.update (s3.pgtab pgtab) i pte) }
    else s
  else s

/-- The function `pagefault_handler` (lines 21-103); `cr2` is the value of `rcr2()`. -/
def pagefault_handler (s : kstate) (env : fault_env) (fuel : Nat) (tf : trapframe) (cr2 : Nat) :
    Option kstate :=
  let fault_addr := PGROUNDDOWN cr2
  match fault_scan s fault_addr tf.err fuel s.head with
  | none => none
  | some none => some (fault_error s tf)
  | some (some cursor) =>
    let s1 := s.log (Event.kalloc env.mem)
    if env.mem = 0 then some (fault_error s1 tf)
    else
      let s2 := memset_zero s1 env.mem PGSIZE
      let perm := if (s2.heap cursor).prot = PROT_WRITE then PTE_W ||| PTE_U else PTE_U
      match mappages s2 env.tbl fault_addr PGSIZE (V2P env.mem) perm with
      | mapres.fail s3 => some (fault_error (s3.log (Event.kfree env.mem)) tf)
      | mapres.remap s3 => some s3
      | mapres.ok s3 => some (fault_populate (s3.log Event.switchuvm) env cursor)

/-! ## Vocabulary of the statements -/

/-- The region list of a process as a heap structure: following `next` from `p` visits
exactly the nodes `xs`, none of them null, and then reaches the null pointer. -/
def isList (heap : Nat → mmap_region) : Nat → List Nat → Prop
  | p, [] => p = 0
  | p, q :: qs => p = q ∧ q ≠ 0 ∧ isList heap (heap q).next qs

/-- Whether `isList heap p xs` holds can be computed. -/
instance isList_decidable (heap : Nat → mmap_region) :
    (p : Nat) → (xs : List Nat) → Decidable (isList heap p xs)
  | p, [] => (inferInstance : Decidable (p = 0))
  | p, q :: qs =>
    have := isList_decidable heap (heap q).next qs
    (inferInstance : Decidable (p = q ∧ q ≠ 0 ∧ isList heap (heap q).next qs))

/-- The covering test of `pagefault_handler` (line 42) for the region at `q`. -/
abbrev covers (s : kstate) (fault_addr q : Nat) : Prop :=
  (s.heap q).addr ≤ fault_addr ∧ u32add (s.heap q).addr (s.heap q).len > fault_addr

/-- The access test of `pagefault_handler` (line 44) for the region at `q`. -/
abbrev permits (s : kstate) (err q : Nat) : Prop :=
  Int.land (s.heap q).prot PROT_WRITE ≠ 0 ∨ ¬ (err &&& T_PGFLT_W ≠ 0)

/-- The page-table installer succeeds for the page `va`: either the page-table page exists
and the entry of `va` is not present, or a new page-table page can be had. -/
abbrev mappages_succeeds (s : kstate) (tbl va : Nat) : Prop :=
  (s.pgdir (PDX va) &&& PTE_P ≠ 0 ∧ s.pgtab (PTE_ADDR (s.pgdir (PDX va))) (PTX va) &&& PTE_P = 0) ∨
  (s.pgdir (PDX va) &&& PTE_P = 0 ∧ tbl ≠ 0)

/-- Recogniser of the calls to the page-table installer in a trace. -/
def is_mappages : Event → Bool
  | Event.mappages _ _ _ _ => true
  | _ => false

/-- Recogniser of the calls that seek or read a file in a trace. -/
def is_file_input : Event → Bool
  | Event.fileseek _ _ => true
  | Event.fileread _ _ _ => true
  | _ => false

/-- What the first phase of `mmap` (lines 51-104) leaves alone: between `s` and `s'` the list
head, the region count, the page tables, the frame memory and the `killed` flag agree, the
heap agrees outside the block `reg`, and the size counter has grown by `length` (32-bit). -/
def mmap_frame (s s' : kstate) (reg : Nat) (length : Int) : Prop :=
  s'.head = s.head ∧ s'.nregions = s.nregions ∧ (∀ q, q ≠ reg → s'.heap q = s.heap q) ∧
  s'.pgdir = s.pgdir ∧ s'.pgtab = s.pgtab ∧ s'.kmem = s.kmem ∧ s'.killed = s.killed ∧
  s'.sz = u32 (s.sz + length)

/-- The regions of a list, without assuming it well formed: `Reach heap p q` when the node
`q` is met by following `next` from `p` before a null pointer is met. -/
inductive Reach (heap : Nat → mmap_region) : Nat → Nat → Prop where
  | here (p : Nat) : p ≠ 0 → Reach heap p p
  | step (p q : Nat) : p ≠ 0 → Reach heap (heap p).next q → Reach heap p q

/-- The invariant of the data model: every region of the list has a page-aligned `addr`. -/
def regions_aligned (s : kstate) : Prop :=
  ∀ q, Reach s.heap s.head q → (s.heap q).addr % PGSIZE = 0

/-! ## Concrete states -/

/-- A region descriptor with every field zero. -/
def region_zero : mmap_region :=
  { addr := 0, len := 0, prot := 0, rtype := 0, fd := 0, offset := 0, next := 0 }

/-- A process without regions whose size counter is `0x4000`. -/
def st_empty : kstate :=
  { sz := 0x4000, head := 0, nregions := 0, ofile := fun _ => 0, killed := 0,
    pgdir := fun _ => 0, heap := fun _ => region_zero, pgtab := fun _ _ => 0,
    kmem := fun _ => 0, trace := [] }

/-- A process with one anonymous read-write region of one page at `0x4000` (descriptor at
heap address 100) and size counter `0x5000`: the state `mmap` leaves when it is called
with length 4096 in `st_empty`. -/
def st_one : kstate :=
  { st_empty with
    sz := 0x5000, head := 100, nregions := 1,
    heap := fun q => if q = 100 then
      { addr := 0x4000, len := 0x1000, prot := 1, rtype := 0, fd := 0, offset := 0, next := 0 }
      else region_zero }

/-- Run `mmap` and then `munmap` on the address it returned, with the same length; the
observation is (address returned, region count after `mmap`, result of `munmap`, region
count after `munmap`). -/
def mmap_then_munmap (s : kstate) (reg fuel : Nat) (length prot flags fd offset : Int) :
    Option (Nat × Int × Int × Int) :=
  (mmap s reg fuel 0 length prot flags fd offset).bind fun r =>
    (munmap r.2 fuel r.1 (u32 length)).map fun q => (r.1, r.2.nregions, q.1, q.2.nregions)

/-- The state after a successful call, or the state before it when the call did not return. -/
def after {α : Type} (s : kstate) (r : Option (α × kstate)) : kstate :=
  match r with
  | some x => x.2
  | none => s

/-- The state reached from `st_empty` by `mmap(100)`, `mmap(100)`, `munmap(0x4000, 100)`
and `mmap(100)` (anonymous, read-write): the list holds a region at `0x5000` followed by
a region at `0x4000`. -/
def st_swapped : kstate :=
  let s1 := after st_empty (mmap st_empty 100 4 0 100 1 0 (-1) 0)
  let s2 := after s1 (mmap s1 200 4 0 100 1 0 (-1) 0)
  let s3 := after s2 (munmap s2 4 0x4000 100)
  after s3 (mmap s3 300 4 0 100 1 0 (-1) 0)

/-- An environment in which `kalloc` returns the frame at `0x80100000`, a page-table page is
available at physical address `0x3000`, and the file layer delivers the byte `7`. -/
def env_ok : fault_env := { mem := 0x80100000, tbl := 0x3000, fdata := [7] }

/-- A read fault from user mode (error code 4: user, read, page not present). -/
def tf_user_read : trapframe := { trapno := 14, err := 4, cs := 0x1B, eip := 0 }

/-- The process `st_empty` with descriptor 3 open on the file `77`. -/
def st_open3 : kstate :=
  { st_empty with ofile := fun i => if i = 3 then 77 else 0 }

/-- The state reached from `st_open3` by `mmap(4096, read-only, MAP_FILE, fd 3, offset 100)`:
one file-backed region at `0x4000` whose duplicated descriptor is slot 0. -/
def st_file_mapped : kstate :=
  after st_open3 (mmap st_open3 100 0 0 4096 0 MAP_FILE 3 100)

/-- The state reached from `st_file_mapped` by a read fault at `0x4000` resolved by
`pagefault_handler`: the page is resident and nothing has written to it. -/
def st_file_resident : kstate :=
  (pagefault_handler st_file_mapped env_ok 1 tf_user_read 0x4000).getD st_file_mapped

/-- The state reached from `st_open3` by `mmap(0x1900 bytes, MAP_FILE, fd 3)`, which returns
`0x4000` and leaves `sz = 0x5900`. -/
def st_file_region : kstate :=
  after st_open3 (mmap st_open3 100 4 0 0x1900 0 MAP_FILE 3 0)

/-- The state reached from `st_file_region` by `mmap(0x1000 bytes, MAP_ANONYMOUS, fd -1)`,
which returns `0x5000`: the page at `0x5000` lies in both regions. -/
def st_overlap : kstate :=
  after st_file_region (mmap st_file_region 200 4 0 0x1000 PROT_WRITE MAP_ANONYMOUS (-1) 0)


/-- A process with one anonymous read-only region (`prot = 0`) of one page at `0x4000`. -/
def st_read_only : kstate :=
  { st_empty with
    sz := 0x5000, head := 100, nregions := 1,
    heap := fun q => if q = 100 then
      { addr := 0x4000, len := 0x1000, prot := 0, rtype := 0, fd := 0, offset := 0, next := 0 }
      else region_zero }

/-- A write fault from user mode (error code 6: user, write, page not present). -/
def tf_user_write : trapframe := { trapno := 14, err := 6, cs := 0x1B, eip := 0 }

/-- The state after `mmap(4096, PROT_WRITE, MAP_ANONYMOUS, -1)` in `st_empty`. -/
def st_first : kstate :=
  after st_empty (mmap st_empty 100 0 0 4096 PROT_WRITE MAP_ANONYMOUS (-1) 0)

/-- The state after `mmap(12288, PROT_WRITE, MAP_ANONYMOUS, -1)` in `st_first`. -/
def st_second : kstate :=
  after st_first (mmap st_first 200 1 0 12288 PROT_WRITE MAP_ANONYMOUS (-1) 0)

/-- The state after `munmap(0x5000, 12288)` in `st_second`. -/
def st_third : kstate :=
  after st_second (munmap st_second 2 0x5000 12288)

/-! ## Further vocabulary and concrete states -/

/-- Modelled from the spec: the hardware dirty indicator.  The processor sets the bit
`PTE_D` in the entry of a resident page when the page is written; `set_dirty s va` is the
state after a write to the page of `va`. -/
def set_dirty (s : kstate) (va : Nat) : kstate :=
  let tb := PTE_ADDR (s.pgdir (PDX va))
  let pte := s.pgtab tb (PTX va) ||| PTE_D
  { s with pgtab := Function.update s.pgtab tb (Function.update (s.pgtab tb) (PTX va) pte) }

/-- The page-table entry of the page of `va`, read through the page directory. -/
def pte_of (s : kstate) (va : Nat) : Nat :=
  s.pgtab (PTE_ADDR (s.pgdir (PDX va))) (PTX va)

/-- The state after a fault the handler returned from, or the state before it. -/
def after_fault (s : kstate) (r : Option kstate) : kstate := r.getD s

/-- The state reached from `st_empty` by the failing call
`mmap(0x7FFFC000, PROT_WRITE, MAP_ANONYMOUS, fd 3)`: no region, `sz = 0x80000000`. -/
def st_top_empty : kstate :=
  after st_empty (mmap st_empty 100 0 0 0x7FFFC000 PROT_WRITE MAP_ANONYMOUS 3 0)

/-- The state reached from `st_empty` by `mmap(0x7FFFC000, PROT_WRITE, MAP_ANONYMOUS, -1)`:
one region at `0x4000`, `sz = 0x80000000`. -/
def st_top_one : kstate :=
  after st_empty (mmap st_empty 100 0 0 0x7FFFC000 PROT_WRITE MAP_ANONYMOUS (-1) 0)

/-- The state reached from `st_open3` by two anonymous calls, `mmap(0x7FFFC000)` and
`mmap(4096)`: regions at `0x4000` and `0x80000000`, `sz = 0x80001000`, descriptor 3 open. -/
def st_top_two : kstate :=
  let s1 := after st_open3 (mmap st_open3 100 0 0 0x7FFFC000 PROT_WRITE MAP_ANONYMOUS (-1) 0)
  after s1 (mmap s1 200 1 0 4096 PROT_WRITE MAP_ANONYMOUS (-1) 0)

/-- The state reached from `st_open3` by `mmap(0x2000, PROT_WRITE, MAP_FILE, fd 3, offset 0)`:
one file-backed read-write region of two pages at `0x4000`. -/
def st_file_two_pages : kstate :=
  after st_open3 (mmap st_open3 100 0 0 0x2000 PROT_WRITE MAP_FILE 3 0)

/-- The state reached from `st_file_two_pages` by a write fault at `0x4000` resolved by the
handler, followed by the write itself: the first page is resident and dirty. -/
def st_first_page_dirty : kstate :=
  set_dirty
    (after_fault st_file_two_pages
      (pagefault_handler st_file_two_pages env_ok 1 tf_user_write 0x4000))
    0x4000

/-- An environment in which `kalloc` returns the frame at `0x80101000`. -/
def env_second : fault_env := { mem := 0x80101000, tbl := 0, fdata := [7] }

/-- The process `st_empty` with descriptor 3 open on the file `77` and descriptor 4 open on
the file `88`. -/
def st_open34 : kstate :=
  { st_empty with ofile := fun i => if i = 3 then 77 else if i = 4 then 88 else 0 }

/-- The state reached from `st_open34` by `mmap(4096, PROT_WRITE, MAP_FILE, fd 3, offset 0)`
(region at `0x4000`, duplicated descriptor in slot 0), then
`mmap(4096, PROT_WRITE, MAP_FILE, fd 4, offset 100)` (region at `0x5000`, duplicated
descriptor in slot 1), then a write fault at `0x5000` resolved by the handler and the write
itself: the page of the second region is resident and dirty. -/
def st_two_files : kstate :=
  let s1 := after st_open34 (mmap st_open34 100 0 0 4096 PROT_WRITE MAP_FILE 3 0)
  let s2 := after s1 (mmap s1 200 1 0 4096 PROT_WRITE MAP_FILE 4 100)
  set_dirty (after_fault s2 (pagefault_handler s2 env_ok 2 tf_user_write 0x5000)) 0x5000

/-- The state reached from `st_empty` by `mmap(4096, prot = 3, MAP_ANONYMOUS, -1)`: one
region at `0x4000` whose protection word has the `PROT_WRITE` bit and one more bit set. -/
def st_prot3 : kstate :=
  after st_empty (mmap st_empty 100 0 0 4096 3 MAP_ANONYMOUS (-1) 0)

/-- The state reached from `st_prot3` by a write fault at `0x4000` resolved by the handler. -/
def st_prot3_mapped : kstate :=
  after_fault st_prot3 (pagefault_handler st_prot3 env_ok 1 tf_user_write 0x4000)

/-- A write fault from user mode on a present page (error code 7: user, write, protection). -/
def tf_user_write_present : trapframe := { trapno := 14, err := 7, cs := 0x1B, eip := 0 }

/-- The state reached from `st_empty` (all calls anonymous, read-write, length 100) by
`mmap` (returns `0x4000`), `mmap` (`0x5000`), `mmap` (`0x6000`), `munmap(0x5000, 100)`,
`mmap` (`0x5000`), `mmap` (`0x6000` again) and `munmap(0x5000, 100)`: the list holds the
regions at `0x4000`, `0x6000`, `0x6000` (heap blocks 100, 300, 500) and the count is 3. -/
def st_twins : kstate :=
  let s1 := after st_empty (mmap st_empty 100 4 0 100 PROT_WRITE MAP_ANONYMOUS (-1) 0)
  let s2 := after s1 (mmap s1 200 4 0 100 PROT_WRITE MAP_ANONYMOUS (-1) 0)
  let s3 := after s2 (mmap s2 300 4 0 100 PROT_WRITE MAP_ANONYMOUS (-1) 0)
  let s4 := after s3 (munmap s3 4 0x5000 100)
  let s5 := after s4 (mmap s4 400 4 0 100 PROT_WRITE MAP_ANONYMOUS (-1) 0)
  let s6 := after s5 (mmap s5 500 4 0 100 PROT_WRITE MAP_ANONYMOUS (-1) 0)
  after s6 (munmap s6 5 0x5000 100)

/-- The fields of a region descriptor other than the link: `addr`, `len`, `prot`, `rtype`,
`fd` and `offset` agree. -/
def same_fields (a b : mmap_region) : Prop :=
  a.addr = b.addr ∧ a.len = b.len ∧ a.prot = b.prot ∧ a.rtype = b.rtype ∧ a.fd = b.fd ∧
  a.offset = b.offset

/-- The state reached from `st_empty` (all calls anonymous, read-write, length 100) by
`mmap` (returns `0x4000`), `mmap` (`0x5000`) and `mmap` (`0x6000`): three regions (heap
blocks 100, 200, 300), `sz = 0x412c`. -/
def st_three : kstate :=
  let s1 := after st_empty (mmap st_empty 100 4 0 100 PROT_WRITE MAP_ANONYMOUS (-1) 0)
  let s2 := after s1 (mmap s1 200 4 0 100 PROT_WRITE MAP_ANONYMOUS (-1) 0)
  after s2 (mmap s2 300 4 0 100 PROT_WRITE MAP_ANONYMOUS (-1) 0)

/-- The state reached from `st_empty` (`sz = 0x4000`) by eight calls of `mmap`, all with
`PROT_WRITE` and `MAP_ANONYMOUS`; those with `fd = 3` fail and only grow `sz` (mod `2^32`):
`mmap(0x2000, fd 3)` fails (`sz = 0x6000`); `mmap(0x7FFFF000, -1)` returns `0x6000`
(`sz = 0x80005000`); `mmap(4096, -1)` returns `0x80005000` (`sz = 0x80006000`);
`mmap(0x7FFFF000, fd 3)` fails (`sz = 0x5000`); `mmap(4096, -1)` returns `0x5000`;
`mmap(4096, -1)` returns `0x8000` (`sz = 0x7000`); `mmap(0x7FFFF000, fd 3)` fails twice
(`sz = 0x5000`).  The list holds the regions at `0x6000`, `0x80005000`, `0x5000` and `0x8000`
(heap blocks 100, 200, 300, 400); block 900 is the one `kmalloc` hands out to the failing
calls, which free it again. -/
def st_cycle : kstate :=
  let s1 := after st_empty (mmap st_empty 900 4 0 0x2000 PROT_WRITE MAP_ANONYMOUS 3 0)
  let s2 := after s1 (mmap s1 100 4 0 0x7FFFF000 PROT_WRITE MAP_ANONYMOUS (-1) 0)
  let s3 := after s2 (mmap s2 200 4 0 4096 PROT_WRITE MAP_ANONYMOUS (-1) 0)
  let s4 := after s3 (mmap s3 900 4 0 0x7FFFF000 PROT_WRITE MAP_ANONYMOUS 3 0)
  let s5 := after s4 (mmap s4 300 4 0 4096 PROT_WRITE MAP_ANONYMOUS (-1) 0)
  let s6 := after s5 (mmap s5 400 4 0 4096 PROT_WRITE MAP_ANONYMOUS (-1) 0)
  let s7 := after s6 (mmap s6 900 4 0 0x7FFFF000 PROT_WRITE MAP_ANONYMOUS 3 0)
  after s7 (mmap s7 900 4 0 0x7FFFF000 PROT_WRITE MAP_ANONYMOUS 3 0)

/-- The state `st_cycle` after lines 51-75 of `mmap(0x7FFFF000, PROT_WRITE, MAP_ANONYMOUS,
-1)` with the block 500 from `kmalloc`: size counter grown, descriptor filled in. -/
def st_cycle_reg : kstate :=
  { st_cycle with
    sz := u32 (st_cycle.sz + 0x7FFFF000), trace := st_cycle.trace ++ [Event.kmalloc 500],
    heap := Function.update st_cycle.heap 500
      { st_cycle.heap 500 with addr := PGROUNDDOWN st_cycle.sz, len := u32 0x7FFFF000,
                               rtype := MAP_ANONYMOUS, offset := 0, prot := PROT_WRITE,
                               next := 0 } }

/-! # Theorems -/

/-! ## Lemmas on region lists -/

theorem isList_frame {heap heap' : Nat → mmap_region} :
    ∀ (xs : List Nat) (p : Nat), isList heap p xs →
      (∀ q ∈ xs, (heap' q).next = (heap q).next) → isList heap' p xs
  | [], _, h, _ => h
  | q :: qs, p, h, hq => by
    obtain ⟨h1, h2, h3⟩ := h
    refine ⟨h1, h2, ?_⟩
    rw [hq q (List.mem_cons_self q qs)]
    exact isList_frame qs _ h3 (fun r hr => hq r (List.mem_cons_of_mem q hr))

/-! ## The unmapper when nothing matches -/

theorem munmap_scan_no_match (addr length : Nat) (s : kstate) :
    ∀ (xs : List Nat) (fuel node next : Nat), isList s.heap next xs →
      (∀ q ∈ xs, ¬ ((s.heap q).addr = addr ∧ (s.heap q).len = length)) →
      xs.length < fuel → munmap_scan addr length fuel s node next = some s
  | [], fuel, node, next, hl, _, hf => by
    cases fuel with
    | zero => simp at hf
    | succ n =>
      have h0 : next = 0 := hl
      simp [munmap_scan, h0]
  | q :: qs, fuel, node, next, hl, hno, hf => by
    cases fuel with
    | zero => simp at hf
    | succ n =>
      obtain ⟨h1, h2, h3⟩ := hl
      subst h1
      have hm := hno next (List.mem_cons_self next qs)
      simp only [munmap_scan, ne_eq, h2, not_false_eq_true, if_true, hm, if_false]
      exact munmap_scan_no_match addr length s qs n next _ h3
        (fun r hr => hno r (List.mem_cons_of_mem next hr)) (by simpa using hf)

/-- Claim C2: when no region of the list has both start address `addr` and length `length`,
`munmap(addr, length)` returns `-1` and the whole kernel state (region list, region count,
size counter, open-file table, page tables, log of external calls) is unchanged. -/
theorem munmap_no_match (s : kstate) (xs : List Nat) (fuel addr length : Nat)
    (hl : isList s.heap s.head xs) (hn : s.nregions ≠ 0 → xs ≠ [])
    (hno : ∀ q ∈ xs, ¬ ((s.heap q).addr = addr ∧ (s.heap q).len = length))
    (hf : xs.length ≤ fuel) :
    munmap s fuel addr length = some (-1, s) := by
  unfold munmap
  split_ifs with h1 h2 h3
  · rfl
  · rfl
  · exfalso
    cases xs with
    | nil => exact hn h2 rfl
    | cons q qs =>
      obtain ⟨e, _, _⟩ := hl
      exact hno q (List.mem_cons_self q qs) (e ▸ h3)
  · cases xs with
    | nil => exact absurd rfl (hn h2)
    | cons q qs =>
      obtain ⟨e, h0, hr⟩ := hl
      have := munmap_scan_no_match addr length s qs fuel s.head (s.heap s.head).next
        (e ▸ hr) (fun r hr => hno r (List.mem_cons_of_mem q hr)) (by simpa using hf)
      simp [this]

/-! ## The fault resolver -/

theorem fault_scan_none (s : kstate) (fa err : Nat) :
    ∀ (xs : List Nat) (fuel cursor : Nat), isList s.heap cursor xs →
      (∀ q ∈ xs, ¬ (covers s fa q ∧ permits s err q)) →
      xs.length < fuel → fault_scan s fa err fuel cursor = some none
  | [], fuel, cursor, hl, _, hf => by
    cases fuel with
    | zero => simp at hf
    | succ n =>
      have h0 : cursor = 0 := hl
      simp [fault_scan, h0]
  | q :: qs, fuel, cursor, hl, hno, hf => by
    cases fuel with
    | zero => simp at hf
    | succ n =>
      obtain ⟨h1, h2, h3⟩ := hl
      subst h1
      have hm := hno cursor (List.mem_cons_self cursor qs)
      have ih := fault_scan_none s fa err qs n _ h3
        (fun r hr => hno r (List.mem_cons_of_mem cursor hr)) (by simpa using hf)
      unfold fault_scan
      rw [if_pos h2]
      split_ifs with hc hp
      · exact absurd ⟨hc, hp⟩ hm
      · exact ih
      · exact ih

theorem fault_scan_first (s : kstate) (fa err c : Nat) (post : List Nat) :
    ∀ (pre : List Nat) (fuel cursor : Nat), isList s.heap cursor (pre ++ c :: post) →
      (∀ q ∈ pre, ¬ (covers s fa q ∧ permits s err q)) →
      covers s fa c → permits s err c →
      pre.length < fuel → fault_scan s fa err fuel cursor = some (some c)
  | [], fuel, cursor, hl, _, hc, hp, hf => by
    cases fuel with
    | zero => simp at hf
    | succ n =>
      obtain ⟨h1, h2, _⟩ := hl
      subst h1
      unfold fault_scan
      rw [if_pos h2, if_pos hc, if_pos hp]
  | q :: qs, fuel, cursor, hl, hno, hc, hp, hf => by
    cases fuel with
    | zero => simp at hf
    | succ n =>
      obtain ⟨h1, h2, h3⟩ := hl
      subst h1
      have hm := hno cursor (List.mem_cons_self cursor qs)
      have ih := fault_scan_first s fa err c post qs n _ h3
        (fun r hr => hno r (List.mem_cons_of_mem cursor hr)) hc hp (by simpa using hf)
      unfold fault_scan
      rw [if_pos h2]
      split_ifs with hc1 hp1
      · exact absurd ⟨hc1, hp1⟩ hm
      · exact ih
      · exact ih

/-- Claim C4: a user-mode write fault whose page is covered only by regions without
`PROT_WRITE` makes `pagefault_handler` set `killed` to 1 and do nothing else: no call to
the frame allocator or to the page-table installer is made and the page tables are as
before. -/
theorem write_fault_read_only_kills (s : kstate) (xs : List Nat) (env : fault_env)
    (fuel : Nat) (tf : trapframe) (cr2 : Nat)
    (hl : isList s.heap s.head xs)
    (hw : tf.err &&& T_PGFLT_W ≠ 0) (hu : tf.cs &&& 3 ≠ 0)
    (hro : ∀ q ∈ xs, covers s (PGROUNDDOWN cr2) q → Int.land (s.heap q).prot PROT_WRITE = 0)
    (hf : xs.length < fuel) :
    pagefault_handler s env fuel tf cr2 = some { s with killed := 1 } := by
  have hscan := fault_scan_none s (PGROUNDDOWN cr2) tf.err xs fuel s.head hl
    (fun q hq h => by
      rcases h.2 with h2 | h2
      · exact h2 (hro q hq h.1)
      · exact h2 hw) hf
  simp [pagefault_handler, hscan, fault_error, hu]

theorem mappages_of_succeeds (s : kstate) (tbl va size pa perm : Nat)
    (h : mappages_succeeds s tbl va) :
    ∃ s3, mappages s tbl va size pa perm = mapres.ok s3 ∧
      s3.trace = s.trace ++ [Event.mappages va size pa perm] ∧ s3.killed = s.killed ∧
      s3.heap = s.heap ∧ s3.ofile = s.ofile ∧ s3.kmem = s.kmem ∧ s3.sz = s.sz ∧
      s3.head = s.head ∧ s3.nregions = s.nregions ∧
      ∃ tb, (tb = PTE_ADDR (s.pgdir (PDX va)) ∨ tb = tbl) ∧
        s3.pgtab tb (PTX va) = pa ||| perm ||| PTE_P ∧
        ∀ tb' i, s3.pgtab tb' i &&& PTE_P ≠ 0 →
          (tb' = tb ∧ i = PTX va) ∨ s3.pgtab tb' i = s.pgtab tb' i := by
  unfold mappages
  simp only [kstate.log]
  rcases h with ⟨h1, h2⟩ | ⟨h1, h2⟩
  · rw [if_pos h1, if_neg (not_not.mpr h2)]
    refine ⟨_, rfl, rfl, rfl, rfl, rfl, rfl, rfl, rfl, rfl, PTE_ADDR (s.pgdir (PDX va)),
      Or.inl rfl, by simp, fun tb' i _ => ?_⟩
    by_cases e1 : tb' = PTE_ADDR (s.pgdir (PDX va))
    · by_cases e2 : i = PTX va
      · exact Or.inl ⟨e1, e2⟩
      · subst e1
        exact Or.inr (by simp [Function.update_noteq e2])
    · exact Or.inr (by simp [Function.update_noteq e1])
  · rw [if_neg (not_not.mpr h1), if_neg h2]
    refine ⟨_, rfl, rfl, rfl, rfl, rfl, rfl, rfl, rfl, rfl, tbl, Or.inr rfl, by simp,
      fun tb' i hp => ?_⟩
    by_cases e1 : tb' = tbl
    · by_cases e2 : i = PTX va
      · exact Or.inl ⟨e1, e2⟩
      · subst e1
        simp [Function.update_noteq e2] at hp
    · exact Or.inr (by simp [Function.update_noteq e1])

theorem fault_populate_effect (s : kstate) (env : fault_env) (cursor : Nat) :
    ∃ rest, (fault_populate s env cursor).trace = s.trace ++ rest ∧
      (fault_populate s env cursor).killed = s.killed ∧
      (∀ e ∈ rest, is_mappages e = false) ∧
      ((s.heap cursor).rtype ≠ MAP_FILE → fault_populate s env cursor = s) := by
  unfold fault_populate
  split_ifs with h1 h2
  · refine ⟨[Event.fileseek (s.ofile (s.heap cursor).fd) (s.heap cursor).offset,
        Event.fileread (s.ofile (s.heap cursor).fd) env.mem (s.heap cursor).len],
      ?_, rfl, ?_, fun h => absurd h1 h⟩
    · simp [kstate.log, fileread_into]
    · intro e he
      simp at he
      rcases he with rfl | rfl <;> rfl
  · exact ⟨[], by simp, rfl, by simp, fun _ => rfl⟩
  · exact ⟨[], by simp, rfl, by simp, fun _ => rfl⟩

/-- Claim C5: a read fault whose page is first covered, in list order, by a region with
`prot = 0` is resolved, when `kalloc` and `mappages` succeed, by exactly one call of the
page-table installer, for the page-rounded address and with permission `PTE_U` (which does
not contain `PTE_W`); the `killed` flag is left as it was. -/
theorem read_fault_read_only_maps_user_only (s : kstate) (pre post : List Nat) (c : Nat)
    (env : fault_env) (fuel : Nat) (tf : trapframe) (cr2 : Nat)
    (hl : isList s.heap s.head (pre ++ c :: post))
    (hr : tf.err &&& T_PGFLT_W = 0)
    (hpre : ∀ q ∈ pre, ¬ covers s (PGROUNDDOWN cr2) q)
    (hc : covers s (PGROUNDDOWN cr2) c) (hprot : (s.heap c).prot = 0)
    (hmem : env.mem ≠ 0) (hmap : mappages_succeeds s env.tbl (PGROUNDDOWN cr2))
    (hf : pre.length < fuel) :
    ∃ s' rest, pagefault_handler s env fuel tf cr2 = some s' ∧ s'.killed = s.killed ∧
      s'.trace = s.trace ++ [Event.kalloc env.mem,
        Event.mappages (PGROUNDDOWN cr2) PGSIZE (V2P env.mem) PTE_U, Event.switchuvm] ++ rest ∧
      (∀ e ∈ rest, is_mappages e = false) ∧ PTE_U &&& PTE_W = 0 := by
  have hscan := fault_scan_first s (PGROUNDDOWN cr2) tf.err c post pre fuel s.head hl
    (fun q hq h => hpre q hq h.1) hc (Or.inr (not_not.mpr hr)) hf
  obtain ⟨s3, hm, ht, hk, hh, -⟩ := mappages_of_succeeds
    (memset_zero (s.log (Event.kalloc env.mem)) env.mem PGSIZE) env.tbl (PGROUNDDOWN cr2)
    PGSIZE (V2P env.mem) PTE_U hmap
  obtain ⟨rest, hpt, hpk, hpm, -⟩ := fault_populate_effect (s3.log Event.switchuvm) env c
  have hperm : (if ((memset_zero (s.log (Event.kalloc env.mem)) env.mem PGSIZE).heap c).prot
      = PROT_WRITE then PTE_W ||| PTE_U else PTE_U) = PTE_U := by
    have : ((memset_zero (s.log (Event.kalloc env.mem)) env.mem PGSIZE).heap c).prot = 0 := hprot
    rw [this]; rfl
  refine ⟨fault_populate (s3.log Event.switchuvm) env c, rest, ?_, ?_, ?_, hpm, by decide⟩
  · simp only [pagefault_handler, hscan, if_neg hmem]
    rw [hperm, hm]
  · rw [hpk]; simpa [kstate.log, memset_zero] using hk
  · rw [hpt]; simp [kstate.log, memset_zero] at ht ⊢; rw [ht]; simp

/-! ## The mapping allocator -/

theorem fdalloc_frame (s : kstate) (f : Nat) :
    (fdalloc s f).2.head = s.head ∧ (fdalloc s f).2.nregions = s.nregions ∧
    (fdalloc s f).2.heap = s.heap ∧ (fdalloc s f).2.sz = s.sz ∧
    (fdalloc s f).2.trace = s.trace ∧ (fdalloc s f).2.pgdir = s.pgdir ∧
    (fdalloc s f).2.pgtab = s.pgtab ∧ (fdalloc s f).2.kmem = s.kmem ∧
    (fdalloc s f).2.killed = s.killed := by
  unfold fdalloc
  split <;> exact ⟨rfl, rfl, rfl, rfl, rfl, rfl, rfl, rfl, rfl⟩

/-- Claim C7: `mmap` with backing kind `MAP_ANONYMOUS` and a descriptor other than `-1`
returns `(void*)-1`; the list head and the region count are as before and the heap differs
at most in the block `kmalloc` returned, so a region list that does not contain that block
is unchanged, node by node; the block is released (`kmfree`) when it was obtained; the
open-file table is as before; the size counter is the 32-bit sum of its old value and
`length`, which is the plain sum when that fits. -/
theorem mmap_anonymous_bad_fd (s : kstate) (reg fuel addr : Nat) (length prot fd offset : Int)
    (hfd : fd ≠ -1) :
    ∃ s', mmap s reg fuel addr length prot MAP_ANONYMOUS fd offset = some (MAP_FAILED, s') ∧
      s'.head = s.head ∧ s'.nregions = s.nregions ∧ s'.ofile = s.ofile ∧
      (∀ q, q ≠ reg → s'.heap q = s.heap q) ∧
      (∀ xs, isList s.heap s.head xs → reg ∉ xs →
        isList s'.heap s'.head xs ∧ ∀ q ∈ xs, s'.heap q = s.heap q) ∧
      (reg ≠ 0 → s'.trace = s.trace ++ [Event.kmalloc reg, Event.kmfree reg]) ∧
      s'.sz = u32 (s.sz + length) ∧
      (0 ≤ (s.sz : Int) + length → (s.sz : Int) + length < 4294967296 →
        (s'.sz : Int) = s.sz + length) := by
  have hsz : 0 ≤ (s.sz : Int) + length → (s.sz : Int) + length < 4294967296 →
      ((u32 (s.sz + length) : Nat) : Int) = s.sz + length := by
    intro h1 h2
    unfold u32
    rw [Int.emod_eq_of_lt h1 h2, Int.toNat_of_nonneg h1]
  by_cases hreg : reg = 0
  · refine ⟨(({ s with sz := u32 (s.sz + length) } : kstate).log (Event.kmalloc reg)), ?_,
      rfl, rfl, rfl, fun _ _ => rfl, fun xs hxs _ => ⟨hxs, fun _ _ => rfl⟩,
      fun h => absurd hreg h, rfl, hsz⟩
    simp [mmap, hreg]
  · let r0 : mmap_region :=
      { s.heap reg with addr := PGROUNDDOWN s.sz, len := u32 length, rtype := MAP_ANONYMOUS,
                        offset := offset, prot := prot, next := 0 }
    have hupd : ∀ q, q ≠ reg → Function.update s.heap reg r0 q = s.heap q :=
      fun q hq => Function.update_noteq hq _ _
    refine ⟨({ (({ s with sz := u32 (s.sz + length) } : kstate).log (Event.kmalloc reg)) with
        heap := Function.update s.heap reg r0 } : kstate).log (Event.kmfree reg), ?_,
      rfl, rfl, rfl, hupd, ?_, fun _ => by simp [kstate.log], rfl, hsz⟩
    · simp [mmap, hreg, hfd, kstate.log, r0]
    · intro xs hxs hfresh
      have hq : ∀ q ∈ xs, Function.update s.heap reg r0 q = s.heap q :=
        fun q hq => hupd q (fun e => hfresh (e ▸ hq))
      refine ⟨isList_frame xs _ hxs (fun q h => ?_), hq⟩
      show (Function.update s.heap reg r0 q).next = (s.heap q).next
      rw [hq q h]

theorem mmap_scan_no_collision (heap : Nat → mmap_region) (head bump a : Nat) :
    ∀ (xs : List Nat) (fuel node : Nat), isList heap node xs → xs ≠ [] →
      (∀ q ∈ xs, (heap q).addr ≠ a) → xs.length ≤ fuel →
      mmap_scan heap head bump fuel node a = some none ∨
      ∃ last, last ∈ xs ∧ (heap last).next = 0 ∧
        mmap_scan heap head bump fuel node a = some (some (last, a))
  | [], _, _, _, hne, _, _ => absurd rfl hne
  | q :: qs, fuel, node, hl, _, hno, hf => by
    cases fuel with
    | zero => simp at hf
    | succ n =>
      obtain ⟨h1, h2, h3⟩ := hl
      subst h1
      have hm := hno node (List.mem_cons_self node qs)
      unfold mmap_scan
      by_cases hnext : (heap node).next ≠ 0
      · rw [if_pos hnext, if_neg (fun e => hm e.symm)]
        split_ifs with hk
        · exact Or.inl rfl
        · have hqs : qs ≠ [] := by
            rintro rfl
            exact hnext h3
          rcases mmap_scan_no_collision heap head bump a qs n _ h3 hqs
            (fun r hr => hno r (List.mem_cons_of_mem node hr)) (by simpa using hf) with h | h
          · exact Or.inl h
          · obtain ⟨last, hmem, hz, hs⟩ := h
            exact Or.inr ⟨last, List.mem_cons_of_mem node hmem, hz, hs⟩
      · rw [if_neg hnext]
        exact Or.inr ⟨node, List.mem_cons_self node qs, not_not.mp hnext, rfl⟩

theorem mmap_link_no_collision (s : kstate) (reg fuel a : Nat) (length : Int) (xs : List Nat)
    (hl : isList s.heap s.head xs) (hn : s.nregions ≠ 0 → xs ≠ [])
    (hno : ∀ q ∈ xs, (s.heap q).addr ≠ a) (hf : xs.length ≤ fuel) :
    ∃ r s', mmap_link s reg fuel a length = some (r, s') ∧ (r = MAP_FAILED ∨ r = a) := by
  unfold mmap_link
  by_cases h0 : s.nregions = 0
  · rw [if_pos h0]
    exact ⟨_, _, rfl, Or.inr (by simp [mmap_finish])⟩
  · rw [if_neg h0]
    have hne := hn h0
    have hhead : (s.heap s.head).addr ≠ a := by
      cases xs with
      | nil => exact absurd rfl hne
      | cons q qs => exact hl.1 ▸ hno q (List.mem_cons_self q qs)
    simp only [if_neg (fun e : a = (s.heap s.head).addr => hhead e.symm)]
    rcases mmap_scan_no_collision s.heap s.head (PGROUNDDOWN (u32 (PGSIZE + length))) a xs fuel
      s.head hl hne hno hf with h | ⟨last, hmem, _, h⟩
    · rw [h]
      exact ⟨_, _, rfl, Or.inl rfl⟩
    · rw [h]
      have hlast : (s.heap last).addr ≠ a := hno last hmem
      simp only [if_neg (fun e : a = (s.heap last).addr => hlast e.symm)]
      exact ⟨_, _, rfl, Or.inr (by simp [mmap_finish])⟩

/-- Shape of `mmap`: it either fails in its first phase or continues with the linking phase
on a state in which the block `reg` holds the new descriptor, starting at `PGROUNDDOWN(sz)`. -/
theorem mmap_cases (s : kstate) (reg fuel addr : Nat) (length prot flags fd offset : Int) :
    (∃ s', mmap s reg fuel addr length prot flags fd offset = some (MAP_FAILED, s') ∧
      mmap_frame s s' reg length ∧
      (s'.heap = s.heap ∨ ((s'.heap reg).addr = PGROUNDDOWN s.sz ∧ (s'.heap reg).next = 0))) ∨
    (∃ s2, mmap s reg fuel addr length prot flags fd offset =
        mmap_link s2 reg fuel (PGROUNDDOWN s.sz) length ∧ reg ≠ 0 ∧
      mmap_frame s s2 reg length ∧ (s2.heap reg).addr = PGROUNDDOWN s.sz ∧
      (s2.heap reg).next = 0 ∧ (s2.heap reg).len = u32 length ∧ (s2.heap reg).rtype = flags ∧
      (s2.heap reg).prot = prot ∧ (s2.heap reg).offset = offset) := by
  unfold mmap
  simp only [kstate.log]
  split_ifs with h1 h2 h3 h4 h5 h6
  · exact Or.inl ⟨_, rfl, ⟨rfl, rfl, fun _ _ => rfl, rfl, rfl, rfl, rfl, rfl⟩, Or.inl rfl⟩
  · exact Or.inl ⟨_, rfl, ⟨rfl, rfl, fun q hq => Function.update_noteq hq _ _, rfl, rfl, rfl,
      rfl, rfl⟩, Or.inr (by simp)⟩
  · refine Or.inr ⟨_, rfl, h1, ⟨rfl, rfl, fun q hq => Function.update_noteq hq _ _, rfl, rfl,
      rfl, rfl, rfl⟩, ?_⟩
    simp
  · obtain ⟨e1, e2, e3, e4, -, e6, e7, e8, e9⟩ := fdalloc_frame
      { sz := u32 (↑s.sz + length), head := s.head, nregions := s.nregions, ofile := s.ofile,
        killed := s.killed, pgdir := s.pgdir,
        heap := Function.update s.heap reg
          { addr := PGROUNDDOWN s.sz, len := u32 length, prot := prot, rtype := flags,
            fd := (s.heap reg).fd, offset := offset, next := 0 },
        pgtab := s.pgtab, kmem := s.kmem, trace := s.trace ++ [Event.kmalloc reg] }
      (s.ofile fd)
    refine Or.inl ⟨_, rfl, ⟨e1, e2, fun q hq => ?_, e6, e7, e8, e9, e4⟩, Or.inr ?_⟩
    · rw [e3]
      exact Function.update_noteq hq _ _
    · rw [e3]
      simp
  · obtain ⟨e1, e2, e3, e4, -, e6, e7, e8, e9⟩ := fdalloc_frame
      { sz := u32 (↑s.sz + length), head := s.head, nregions := s.nregions, ofile := s.ofile,
        killed := s.killed, pgdir := s.pgdir,
        heap := Function.update s.heap reg
          { addr := PGROUNDDOWN s.sz, len := u32 length, prot := prot, rtype := flags,
            fd := (s.heap reg).fd, offset := offset, next := 0 },
        pgtab := s.pgtab, kmem := s.kmem, trace := s.trace ++ [Event.kmalloc reg] }
      (s.ofile fd)
    refine Or.inr ⟨_, rfl, h1, ⟨e1, e2, fun q hq => ?_, e6, e7, e8, e9, e4⟩, ?_⟩
    · dsimp only
      rw [Function.update_noteq hq, e3]
      exact Function.update_noteq hq _ _
    · dsimp only
      rw [e3]
      simp
  · exact Or.inl ⟨_, rfl, ⟨rfl, rfl, fun q hq => Function.update_noteq hq _ _, rfl, rfl, rfl,
      rfl, rfl⟩, Or.inr (by simp)⟩
  · refine Or.inr ⟨_, rfl, h1, ⟨rfl, rfl, fun q hq => Function.update_noteq hq _ _, rfl, rfl,
      rfl, rfl, rfl⟩, ?_⟩
    simp

/-- Claim C8: when no region of the list starts at `PGROUNDDOWN(sz)` (in particular when the
list is empty), `mmap` returns, and what it returns is `(void*)-1` or `PGROUNDDOWN` of the
size counter before the call; the outcome is the same for every hint address. -/
theorem mmap_places_at_old_top (s : kstate) (reg fuel hint : Nat)
    (length prot flags fd offset : Int) (xs : List Nat)
    (hl : isList s.heap s.head xs) (hn : s.nregions ≠ 0 → xs ≠ []) (hfresh : reg ∉ xs)
    (hno : ∀ q ∈ xs, (s.heap q).addr ≠ PGROUNDDOWN s.sz) (hf : xs.length ≤ fuel) :
    (∃ r s', mmap s reg fuel hint length prot flags fd offset = some (r, s') ∧
      (r ≠ MAP_FAILED → r = PGROUNDDOWN s.sz)) ∧
    ∀ hint', mmap s reg fuel hint' length prot flags fd offset =
      mmap s reg fuel hint length prot flags fd offset := by
  refine ⟨?_, fun _ => rfl⟩
  rcases mmap_cases s reg fuel hint length prot flags fd offset with
    ⟨s', h, -, -⟩ | ⟨s2, h, -, ⟨hh, hnr, hheap, -⟩, -⟩
  · exact ⟨_, _, h, fun hne => absurd rfl hne⟩
  · have hq : ∀ q ∈ xs, s2.heap q = s.heap q := fun q hq => hheap q (fun e => hfresh (e ▸ hq))
    obtain ⟨r, s', hr, hor⟩ := mmap_link_no_collision s2 reg fuel (PGROUNDDOWN s.sz) length xs
      (hh ▸ isList_frame xs _ hl (fun q h => by rw [hq q h]))
      (hnr ▸ hn) (fun q h => by rw [hq q h]; exact hno q h) hf
    exact ⟨r, s', h.trans hr, fun hne => hor.resolve_left hne⟩

/-! ## Page alignment of the addresses handed out -/

theorem PGROUNDDOWN_mod (a : Nat) : PGROUNDDOWN a % PGSIZE = 0 := by
  unfold PGROUNDDOWN PGSIZE
  omega

theorem u32add_mod_page (a b : Nat) (hb : b % PGSIZE = 0) :
    u32add a b % PGSIZE = a % PGSIZE := by
  unfold u32add PGSIZE at *
  omega

theorem MAP_FAILED_not_aligned : MAP_FAILED % PGSIZE ≠ 0 := by decide

theorem mmap_scan_aligned (heap : Nat → mmap_region) (head bump : Nat)
    (hb : bump % PGSIZE = 0) :
    ∀ (fuel node a last a2 : Nat),
      mmap_scan heap head bump fuel node a = some (some (last, a2)) →
      a2 % PGSIZE = a % PGSIZE
  | 0, _, _, _, _, h => by simp [mmap_scan] at h
  | fuel + 1, node, a, last, a2, h => by
    unfold mmap_scan at h
    split_ifs at h with h1 h2 h3
    · rw [mmap_scan_aligned heap head bump hb fuel _ _ last a2 h]
      exact u32add_mod_page a bump hb
    · simp at h
    · exact mmap_scan_aligned heap head bump hb fuel _ _ last a2 h
    · simp only [Option.some.injEq, Prod.mk.injEq] at h
      rw [h.2]

/-- Effect of the linking phase of `mmap` when it returns. -/
theorem mmap_link_effect (s : kstate) (reg fuel a : Nat) (length : Int) (r : Nat) (s' : kstate)
    (h : mmap_link s reg fuel a length = some (r, s')) :
    s'.pgdir = s.pgdir ∧ s'.pgtab = s.pgtab ∧ s'.kmem = s.kmem ∧ s'.killed = s.killed ∧
    s'.sz = s.sz ∧ s'.ofile = s.ofile ∧ (s'.head = s.head ∨ s'.head = reg) ∧
    (∀ q, q ≠ reg → (s'.heap q).addr = (s.heap q).addr ∧
      ((s'.heap q).next = (s.heap q).next ∨ (s'.heap q).next = reg)) ∧
    ((s'.heap reg).next = (s.heap reg).next ∨ (s'.heap reg).next = reg) ∧
    ((r = MAP_FAILED ∧ s'.trace = s.trace ++ [Event.kmfree reg] ∧ s'.nregions = s.nregions ∧
        s'.heap = s.heap ∧ s'.head = s.head) ∨
     (s'.trace = s.trace ∧ s'.nregions = s.nregions + 1 ∧ (s'.heap reg).addr = r ∧
        r % PGSIZE = a % PGSIZE ∧ (s'.heap reg).len = (s.heap reg).len ∧
        (s'.heap reg).rtype = (s.heap reg).rtype ∧
        (s'.head = reg ∨ ∃ node, (s'.heap node).next = reg))) := by
  have hb : PGROUNDDOWN (u32 (PGSIZE + length)) % PGSIZE = 0 := PGROUNDDOWN_mod _
  unfold mmap_link at h
  by_cases h0 : s.nregions = 0
  · rw [if_pos h0] at h
    simp only [mmap_finish, Option.some.injEq, Prod.mk.injEq] at h
    obtain ⟨hr, hs⟩ := h
    subst hs
    refine ⟨rfl, rfl, rfl, rfl, rfl, rfl, Or.inr rfl, fun q hq => ?_, ?_, Or.inr ?_⟩
    · simp [Function.update_noteq hq]
    · simp
    · simp at hr
      simp [hr]
  · rw [if_neg h0] at h
    dsimp only at h
    generalize hscan : mmap_scan s.heap s.head (PGROUNDDOWN (u32 (PGSIZE + length))) fuel s.head
      (if a = (s.heap s.head).addr then u32add a (PGROUNDDOWN (u32 (PGSIZE + length))) else a)
      = res at h
    match res, hscan, h with
    | none, _, h => simp at h
    | some none, _, h =>
      simp only [Option.some.injEq, Prod.mk.injEq] at h
      obtain ⟨hr, hs⟩ := h
      subst hs
      exact ⟨rfl, rfl, rfl, rfl, rfl, rfl, Or.inl rfl, fun q _ => ⟨rfl, Or.inl rfl⟩, Or.inl rfl,
        Or.inl ⟨hr.symm, rfl, rfl, rfl, rfl⟩⟩
    | some (some (node, a2)), hscan, h =>
      have ha2 := mmap_scan_aligned _ _ _ hb _ _ _ _ _ hscan
      have ha1 : (if a = (s.heap s.head).addr then
          u32add a (PGROUNDDOWN (u32 (PGSIZE + length))) else a) % PGSIZE = a % PGSIZE := by
        split_ifs
        · exact u32add_mod_page a _ hb
        · rfl
      simp only [mmap_finish, Option.some.injEq, Prod.mk.injEq] at h
      obtain ⟨hr, hs⟩ := h
      subst hs
      refine ⟨rfl, rfl, rfl, rfl, rfl, rfl, Or.inl rfl, fun q hq => ?_, ?_, Or.inr ?_⟩
      · simp only [Function.update_noteq hq]
        by_cases hqn : q = node
        · subst hqn; simp
        · simp [Function.update_noteq hqn]
      · by_cases hqn : reg = node
        · subst hqn; simp
        · simp [Function.update_noteq hqn]
      · simp only [Function.update_same] at hr
        refine ⟨rfl, rfl, by simp [hr], ?_, ?_, ?_, Or.inr ⟨node, ?_⟩⟩
        · rw [← hr]
          split_ifs
          · rw [u32add_mod_page _ _ hb, ha2, ha1]
          · rw [ha2, ha1]
        · by_cases hqn : reg = node
          · subst hqn; simp
          · simp [Function.update_noteq hqn]
        · by_cases hqn : reg = node
          · subst hqn; simp
          · simp [Function.update_noteq hqn]
        · by_cases hqn : node = reg
          · subst hqn; simp
          · simp [Function.update_noteq hqn]

/-! ## Reachable regions -/

theorem Reach_start_ne_zero {H : Nat → mmap_region} {p q : Nat} (h : Reach H p q) : p ≠ 0 := by
  cases h with
  | here _ hp => exact hp
  | step _ _ hp _ => exact hp

theorem Reach_stuck {H : Nat → mmap_region} {reg : Nat}
    (h2 : (H reg).next = 0 ∨ (H reg).next = reg) :
    ∀ p q, Reach H p q → p = reg → q = reg := by
  intro p q h
  induction h with
  | here p _ => exact fun e => e
  | step p q _ hr ih =>
    intro e
    subst e
    rcases h2 with h0 | h0
    · rw [h0] at hr
      exact absurd rfl (Reach_start_ne_zero hr)
    · exact ih h0

/-- Linking a node: when the `next` fields of `H'` are those of `H` or point to `reg`, and
`reg` ends the list or points to itself, every region of `H'` is `reg` or a region of `H`. -/
theorem Reach_link {H H' : Nat → mmap_region} {reg : Nat}
    (h1 : ∀ q, q ≠ reg → (H' q).next = (H q).next ∨ (H' q).next = reg)
    (h2 : (H' reg).next = 0 ∨ (H' reg).next = reg) :
    ∀ p q, Reach H' p q → q = reg ∨ Reach H p q := by
  intro p q h
  induction h with
  | here p hp => exact Or.inr (Reach.here p hp)
  | step p q hp hr ih =>
    by_cases e : p = reg
    · exact Or.inl (Reach_stuck h2 p q (Reach.step p q hp hr) e)
    · rcases h1 p e with hn | hn
      · rcases ih with ih | ih
        · exact Or.inl ih
        · exact Or.inr (Reach.step p q hp (hn ▸ ih))
      · rw [hn] at hr
        exact Or.inl (Reach_stuck h2 reg q hr rfl)

/-- Unlinking a node: when `node` is made to point past its successor, every region of the
new heap is a region of the old one. -/
theorem Reach_unlink {H : Nat → mmap_region} {node : Nat} (hn : (H node).next ≠ 0)
    (H' : Nat → mmap_region)
    (h1 : ∀ q, q ≠ node → (H' q).next = (H q).next)
    (h2 : (H' node).next = (H (H node).next).next) :
    ∀ p q, Reach H' p q → Reach H p q := by
  intro p q h
  induction h with
  | here p hp => exact Reach.here p hp
  | step p q hp _ ih =>
    by_cases e : p = node
    · subst e
      rw [h2] at ih
      exact Reach.step p q hp (Reach.step _ q hn ih)
    · rw [h1 p e] at ih
      exact Reach.step p q hp ih

/-- Effect of `mmap` on the heap when it returns. -/
theorem mmap_heap_effect (s : kstate) (reg fuel addr : Nat) (length prot flags fd offset : Int)
    (r : Nat) (s' : kstate)
    (h : mmap s reg fuel addr length prot flags fd offset = some (r, s')) :
    (s'.head = s.head ∨ s'.head = reg) ∧
    (∀ q, q ≠ reg → (s'.heap q).addr = (s.heap q).addr ∧
      ((s'.heap q).next = (s.heap q).next ∨ (s'.heap q).next = reg)) ∧
    ((s'.heap = s.heap ∧ s'.head = s.head) ∨
      (((s'.heap reg).next = 0 ∨ (s'.heap reg).next = reg) ∧
        (s'.heap reg).addr % PGSIZE = 0)) ∧
    (r ≠ MAP_FAILED → r % PGSIZE = 0 ∧ (s'.heap reg).addr = r ∧
      (s'.head = reg ∨ ∃ node, (s'.heap node).next = reg)) := by
  rcases mmap_cases s reg fuel addr length prot flags fd offset with
    ⟨s1, h1, ⟨hh, -, hheap, -⟩, hreg⟩ | ⟨s2, h2, -, ⟨hh, -, hheap, -⟩, ha, hnx, -⟩
  · rw [h1] at h
    simp only [Option.some.injEq, Prod.mk.injEq] at h
    obtain ⟨hr, hs⟩ := h
    subst hs
    refine ⟨Or.inl hh, fun q hq => ⟨by rw [hheap q hq], Or.inl (by rw [hheap q hq])⟩, ?_,
      fun hne => absurd hr.symm hne⟩
    rcases hreg with e | ⟨e1, e2⟩
    · exact Or.inl ⟨e, hh⟩
    · exact Or.inr ⟨Or.inl e2, by rw [e1]; exact PGROUNDDOWN_mod _⟩
  · rw [h2] at h
    obtain ⟨-, -, -, -, -, -, hhead, hq, hnext, hres⟩ := mmap_link_effect s2 reg fuel _ length r s' h
    have hal : (s'.heap reg).addr % PGSIZE = 0 := by
      rcases hres with ⟨-, -, -, e, -⟩ | ⟨-, -, e1, e2, -⟩
      · rw [e, ha]; exact PGROUNDDOWN_mod _
      · rw [e1, e2]; exact PGROUNDDOWN_mod _
    refine ⟨?_, fun q hne => ?_, Or.inr ⟨?_, hal⟩, fun hne => ?_⟩
    · rcases hhead with e | e
      · exact Or.inl (e.trans hh)
      · exact Or.inr e
    · obtain ⟨e1, e2⟩ := hq q hne
      rw [hheap q hne] at e1 e2
      exact ⟨e1, e2⟩
    · rw [hnx] at hnext
      exact hnext
    · rcases hres with ⟨e, -⟩ | ⟨-, -, e1, e2, -, -, e3⟩
      · exact absurd e hne
      · exact ⟨by rw [e2]; exact PGROUNDDOWN_mod _, e1, e3⟩

theorem munmap_release_frame (s : kstate) (node length : Nat) :
    (munmap_release s node length).heap = s.heap ∧
    (munmap_release s node length).head = s.head := by
  unfold munmap_release deallocuvm
  simp only [kstate.log]
  split_ifs <;> exact ⟨rfl, rfl⟩

/-- One call of `delete_mmap_node(next, node)` with `next = node->next` not null: every region
of the list afterwards was a region of the list before, and no `addr` field changes. -/
theorem delete_mmap_node_reach (s : kstate) (node next : Nat) (hn : next ≠ 0)
    (hnext : next = (s.heap node).next) :
    (∀ q, Reach (delete_mmap_node s next node).heap (delete_mmap_node s next node).head q →
      Reach s.heap s.head q) ∧
    ∀ q, ((delete_mmap_node s next node).heap q).addr = (s.heap q).addr := by
  unfold delete_mmap_node
  simp only [kstate.log]
  split_ifs with h1 h2
  · refine ⟨fun q hq => ?_, fun _ => rfl⟩
    exact Reach.step _ q (h1 ▸ hn) hq
  · refine ⟨fun q hq => ?_, fun _ => rfl⟩
    exact absurd rfl (Reach_start_ne_zero hq)
  · refine ⟨fun q hq => ?_, fun q => ?_⟩
    · refine Reach_unlink (hnext ▸ hn) _ (fun p hp => ?_) ?_ _ q hq
      · simp [Function.update_noteq hp]
      · simp [hnext]
    · by_cases e : q = node
      · subst e; simp
      · simp [Function.update_noteq e]

theorem munmap_scan_reach (addr length : Nat) :
    ∀ (fuel : Nat) (s : kstate) (node next : Nat) (s' : kstate),
      munmap_scan addr length fuel s node next = some s' → next = (s.heap node).next →
      (∀ q, Reach s'.heap s'.head q → Reach s.heap s.head q) ∧
      ∀ q, (s'.heap q).addr = (s.heap q).addr
  | 0, _, _, _, _, h, _ => by simp [munmap_scan] at h
  | fuel + 1, s, node, next, s', h, hnext => by
    unfold munmap_scan at h
    by_cases hn : next ≠ 0
    · rw [if_pos hn] at h
      by_cases hm : (s.heap next).addr = addr ∧ (s.heap next).len = length
      · simp only [if_pos hm] at h
        obtain ⟨e1, e2⟩ := munmap_release_frame s next length
        obtain ⟨d1, d2⟩ := delete_mmap_node_reach (munmap_release s next length) node next hn
          (by rw [e1]; exact hnext)
        obtain ⟨i1, i2⟩ := munmap_scan_reach addr length fuel _ next _ s' h rfl
        refine ⟨fun q hq => ?_, fun q => ?_⟩
        · have := d1 q (i1 q hq)
          rw [e1, e2] at this
          exact this
        · rw [i2 q, d2 q, e1]
      · simp only [if_neg hm] at h
        exact munmap_scan_reach addr length fuel s next _ s' h rfl
    · rw [if_neg hn] at h
      simp only [Option.some.injEq] at h
      subst h
      exact ⟨fun _ hq => hq, fun _ => rfl⟩

/-- Effect of `munmap` on the list when it returns, for a process whose count is nonzero
only when it has a list head. -/
theorem munmap_reach (s : kstate) (fuel addr length : Nat) (r : Int) (s' : kstate)
    (hh : s.nregions ≠ 0 → s.head ≠ 0)
    (h : munmap s fuel addr length = some (r, s')) :
    (∀ q, Reach s'.heap s'.head q → Reach s.heap s.head q) ∧
    ∀ q, (s'.heap q).addr = (s.heap q).addr := by
  unfold munmap at h
  split_ifs at h with h1 h2 h3
  · simp only [Option.some.injEq, Prod.mk.injEq] at h
    rw [← h.2]
    exact ⟨fun _ hq => hq, fun _ => rfl⟩
  · simp only [Option.some.injEq, Prod.mk.injEq] at h
    rw [← h.2]
    exact ⟨fun _ hq => hq, fun _ => rfl⟩
  · simp only [Option.some.injEq, Prod.mk.injEq] at h
    rw [← h.2]
    obtain ⟨e1, e2⟩ := munmap_release_frame s s.head length
    unfold delete_mmap_node
    simp only [kstate.log, if_true]
    split_ifs with h4
    · refine ⟨fun q hq => ?_, fun q => by simp only [e1]⟩
      simp only [e1, e2] at hq
      exact Reach.step _ q (hh h2) hq
    · exact ⟨fun q hq => absurd rfl (Reach_start_ne_zero hq), fun q => by simp only [e1]⟩
  · dsimp only at h
    cases hscan : munmap_scan addr length fuel s s.head (s.heap s.head).next with
    | none => rw [hscan] at h; simp at h
    | some s1 =>
      rw [hscan] at h
      simp only [Option.some.injEq, Prod.mk.injEq] at h
      rw [← h.2]
      exact munmap_scan_reach addr length fuel s s.head _ s1 hscan rfl

/-! ## Well-formed lists: the unmapper returns -/

theorem isList_functional {heap : Nat → mmap_region} :
    ∀ (xs ys : List Nat) (p : Nat), isList heap p xs → isList heap p ys → xs = ys
  | [], [], _, _, _ => rfl
  | [], y :: ys, p, h1, h2 => by
    have e1 : p = 0 := h1
    obtain ⟨e2, e3, -⟩ := h2
    exact absurd (e2.symm.trans e1) e3
  | x :: xs, [], p, h1, h2 => by
    have e1 : p = 0 := h2
    obtain ⟨e2, e3, -⟩ := h1
    exact absurd (e2.symm.trans e1) e3
  | x :: xs, y :: ys, p, h1, h2 => by
    obtain ⟨a1, -, a3⟩ := h1
    obtain ⟨b1, -, b3⟩ := h2
    have e : x = y := a1.symm.trans b1
    subst e
    rw [isList_functional xs ys _ a3 b3]

theorem isList_suffix {heap : Nat → mmap_region} :
    ∀ (xs : List Nat) (p q : Nat), isList heap p xs → q ∈ xs →
      ∃ pre post, xs = pre ++ q :: post ∧ isList heap q (q :: post)
  | [], _, _, _, hq => by simp at hq
  | x :: xs, p, q, h, hq => by
    by_cases e : q = x
    · subst e
      exact ⟨[], xs, rfl, rfl, h.2.1, h.2.2⟩
    · have hq' : q ∈ xs := by
        rcases List.mem_cons.mp hq with h1 | h1
        · exact absurd h1 e
        · exact h1
      obtain ⟨pre, post, e1, e2⟩ := isList_suffix xs _ q h.2.2 hq'
      exact ⟨x :: pre, post, by rw [e1]; rfl, e2⟩

theorem isList_head_not_in_tail {heap : Nat → mmap_region} (q : Nat) (qs : List Nat)
    (h : isList heap q (q :: qs)) : q ∉ qs := by
  intro hq
  obtain ⟨pre, post, e1, e2⟩ := isList_suffix qs _ q h.2.2 hq
  have := isList_functional _ _ q h e2
  have hlen := congrArg List.length this
  rw [e1] at hlen
  simp at hlen
  omega

theorem munmap_release_heap (s : kstate) (node length : Nat) :
    (munmap_release s node length).heap = s.heap :=
  (munmap_release_frame s node length).1

theorem delete_mmap_node_next (s : kstate) (node next q : Nat) (hq : q ≠ node) :
    ((delete_mmap_node s next node).heap q).next = (s.heap q).next := by
  unfold delete_mmap_node
  simp only [kstate.log]
  split_ifs
  · rfl
  · rfl
  · simp [Function.update_noteq hq]

theorem munmap_scan_returns (addr length : Nat) :
    ∀ (rest : List Nat) (fuel : Nat) (s : kstate) (node next : Nat),
      isList s.heap node (node :: rest) → next = (s.heap node).next → rest.length < fuel →
      ∃ s', munmap_scan addr length fuel s node next = some s'
  | [], fuel, s, node, next, hl, hnext, hf => by
    cases fuel with
    | zero => simp at hf
    | succ n =>
      have h0 : (s.heap node).next = 0 := hl.2.2
      refine ⟨s, ?_⟩
      simp [munmap_scan, hnext, h0]
  | q :: qs, fuel, s, node, next, hl, hnext, hf => by
    cases fuel with
    | zero => simp at hf
    | succ n =>
      obtain ⟨-, hnode, hq, hq0, hqs⟩ := hl
      have hnq : next = q := hnext.trans hq
      subst hnq
      have hnotin : node ∉ next :: qs := isList_head_not_in_tail node (next :: qs)
        ⟨rfl, hnode, hq, hq0, hqs⟩
      unfold munmap_scan
      rw [if_pos hq0]
      dsimp only
      by_cases hm : (s.heap next).addr = addr ∧ (s.heap next).len = length
      · rw [if_pos hm]
        refine munmap_scan_returns addr length qs n _ next _ ?_ rfl (by simpa using hf)
        refine isList_frame (next :: qs) next ⟨rfl, hq0, hqs⟩ (fun r hr => ?_)
        rw [delete_mmap_node_next _ _ _ _ (fun e : r = node => hnotin (e ▸ hr)), munmap_release_heap]
      · rw [if_neg hm]
        exact munmap_scan_returns addr length qs n s next _ ⟨rfl, hq0, hqs⟩ rfl
          (by simpa using hf)

/-- On a well-formed region list, with fuel for every node, `munmap` returns. -/
theorem munmap_returns (s : kstate) (xs : List Nat) (fuel addr length : Nat)
    (hl : isList s.heap s.head xs) (hn : s.nregions ≠ 0 → xs ≠ []) (hf : xs.length ≤ fuel) :
    ∃ r s', munmap s fuel addr length = some (r, s') := by
  unfold munmap
  split_ifs with h1 h2 h3
  · exact ⟨_, _, rfl⟩
  · exact ⟨_, _, rfl⟩
  · exact ⟨_, _, rfl⟩
  · cases xs with
    | nil => exact absurd rfl (hn h2)
    | cons q qs =>
      have e : s.head = q := hl.1
      obtain ⟨s1, hs1⟩ := munmap_scan_returns addr length qs fuel s s.head (s.heap s.head).next
        (by rw [e]; exact ⟨rfl, hl.2.1, hl.2.2⟩) rfl (by simpa using hf)
      exact ⟨-1, s1, by simp [hs1]⟩

theorem Reach_iff_mem {heap : Nat → mmap_region} :
    ∀ (xs : List Nat) (p q : Nat), isList heap p xs → (Reach heap p q ↔ q ∈ xs) := by
  intro xs p q hl
  constructor
  · intro hr
    induction hr generalizing xs with
    | here p hp =>
      cases xs with
      | nil => exact absurd hl hp
      | cons x xs => rw [hl.1]; exact List.mem_cons_self x xs
    | step p q hp _ ih =>
      cases xs with
      | nil => exact absurd hl hp
      | cons x xs =>
        obtain ⟨e, -, h3⟩ := hl
        subst e
        exact List.mem_cons_of_mem p (ih xs h3)
  · intro hq
    induction xs generalizing p with
    | nil => simp at hq
    | cons x xs ih =>
      obtain ⟨e, hx, h3⟩ := hl
      subst e
      rcases List.mem_cons.mp hq with h1 | h1
      · rw [h1]; exact Reach.here p hx
      · exact Reach.step p q hx (ih _ h3 h1)

/-- Claim C9: an address returned by a successful `mmap` is a multiple of 4096 and is the
`addr` field of the new region, which is the list head or the successor of a node; and the property that every region of the list has a
page-aligned `addr` holds for the empty list and is kept by every call of `mmap` and of
`munmap` that returns (for `munmap`, in a process whose region count is nonzero only when it
has a list head).  For a well-formed list the regions are the nodes of the list, and `munmap`
does return when it has fuel for every node. -/
theorem mmap_page_aligned :
    (∀ (s : kstate) (reg fuel hint : Nat) (length prot flags fd offset : Int) (r : Nat)
        (s' : kstate), mmap s reg fuel hint length prot flags fd offset = some (r, s') →
        r ≠ MAP_FAILED → r % 4096 = 0 ∧ (s'.heap reg).addr = r ∧
          (s'.head = reg ∨ ∃ node, (s'.heap node).next = reg)) ∧
    (∀ s : kstate, s.head = 0 → regions_aligned s) ∧
    (∀ (s : kstate) (reg fuel hint : Nat) (length prot flags fd offset : Int) (r : Nat)
        (s' : kstate), regions_aligned s →
        mmap s reg fuel hint length prot flags fd offset = some (r, s') → regions_aligned s') ∧
    (∀ (s : kstate) (fuel addr length : Nat) (r : Int) (s' : kstate), regions_aligned s →
        (s.nregions ≠ 0 → s.head ≠ 0) →
        munmap s fuel addr length = some (r, s') → regions_aligned s') ∧
    (∀ (s : kstate) (xs : List Nat), isList s.heap s.head xs →
        (regions_aligned s ↔ ∀ q ∈ xs, (s.heap q).addr % 4096 = 0)) ∧
    (∀ (s : kstate) (xs : List Nat) (fuel addr length : Nat), isList s.heap s.head xs →
        (s.nregions ≠ 0 → xs ≠ []) → xs.length ≤ fuel →
        ∃ r s', munmap s fuel addr length = some (r, s')) := by
  refine ⟨?_, ?_, ?_, ?_, ?_, ?_⟩
  · intro s reg fuel hint length prot flags fd offset r s' h hne
    exact (mmap_heap_effect s reg fuel hint length prot flags fd offset r s' h).2.2.2 hne
  · intro s h0 q hq
    rw [h0] at hq
    exact absurd rfl (Reach_start_ne_zero hq)
  · intro s reg fuel hint length prot flags fd offset r s' hinv h q hq
    obtain ⟨hhead, hheap, hreg, -⟩ := mmap_heap_effect s reg fuel hint length prot flags fd offset r s' h
    rcases hreg with ⟨e1, e2⟩ | ⟨hnx, hal⟩
    · rw [e1, e2] at hq
      rw [e1]
      exact hinv q hq
    · by_cases e : q = reg
      · rw [e]; exact hal
      · rcases Reach_link (fun p hp => (hheap p hp).2) hnx _ q hq with h1 | h1
        · exact absurd h1 e
        · rw [(hheap q e).1]
          rcases hhead with e2 | e2
          · rw [e2] at h1
            exact hinv q h1
          · rw [e2] at hq
            exact absurd (Reach_stuck hnx _ q hq rfl) e
  · intro s fuel addr length r s' hinv hh h q hq
    obtain ⟨h1, h2⟩ := munmap_reach s fuel addr length r s' hh h
    rw [h2 q]
    exact hinv q (h1 q hq)
  · intro s xs hl
    constructor
    · intro h q hq
      exact h q ((Reach_iff_mem xs s.head q hl).mpr hq)
    · intro h q hq
      exact h q ((Reach_iff_mem xs s.head q hl).mp hq)
  · intro s xs fuel addr length hl hn hf
    exact munmap_returns s xs fuel addr length hl hn hf

/-! ## Lazy anonymous mappings -/

/-- Claim C6 as stated fails: in `st_overlap` the anonymous region returned by `mmap` starts
at `0x5000` and is one page long, but the read fault at `0x5004`, for which `kalloc` and
`mappages` succeed, is resolved from the file-backed region that precedes it in the list
and also covers that page: the handler seeks and reads the file, and the frame is not
zero-filled. -/
theorem anonymous_fault_reads_overlapping_file :
    (mmap st_file_region 200 4 0 0x1000 PROT_WRITE MAP_ANONYMOUS (-1) 0).map
        (fun r => (r.1, (r.2.heap 200).rtype, (r.2.heap 200).len))
      = some (0x5000, MAP_ANONYMOUS, 0x1000) ∧
    env_ok.mem ≠ 0 ∧ mappages_succeeds st_overlap env_ok.tbl (PGROUNDDOWN 0x5004) ∧
    (pagefault_handler st_overlap env_ok 4 tf_user_read 0x5004).map
        (fun s => (s.trace.filter is_file_input, s.kmem env_ok.mem, s.killed))
      = some ([Event.fileseek 77 0, Event.fileread 77 0x80100000 0x1900], 7, 0) := by
  decide

theorem mmap_anonymous_unfold (s : kstate) (reg fuel addr : Nat) (length prot offset : Int)
    (hreg : reg ≠ 0) :
    mmap s reg fuel addr length prot MAP_ANONYMOUS (-1) offset =
      mmap_link
        { s with
          sz := u32 (s.sz + length), trace := s.trace ++ [Event.kmalloc reg],
          heap := Function.update s.heap reg
            { s.heap reg with addr := PGROUNDDOWN s.sz, len := u32 length,
                              rtype := MAP_ANONYMOUS, offset := offset, prot := prot,
                              next := 0 } }
        reg fuel (PGROUNDDOWN s.sz) length := by
  simp [mmap, hreg, kstate.log]

/-- Claim C6, amended: a successful anonymous `mmap` leaves the page directory, the page
tables and the frame memory as they were and calls nothing but `kmalloc` (no frame is
allocated, nothing is mapped); the region it links is anonymous, starts at the address
returned and has the length asked for.  And for every fault at which the scan of the handler
stops at an anonymous region `c` (the first region in list order that covers the
page-rounded address and passes the access test), when `kalloc` and `mappages` succeed the
handler calls the installer once, for the page-rounded address, the entry installed maps the
frame, every other present entry is as before, the `PGSIZE` bytes of the frame are zero, no
file is sought or read, and `killed` is as before. -/
theorem anonymous_mapping_lazy_zero_filled :
    (∀ (s : kstate) (reg fuel hint : Nat) (length prot fd offset : Int) (r : Nat) (s' : kstate),
        mmap s reg fuel hint length prot MAP_ANONYMOUS fd offset = some (r, s') →
        r ≠ MAP_FAILED →
        s'.pgdir = s.pgdir ∧ s'.pgtab = s.pgtab ∧ s'.kmem = s.kmem ∧
        s'.trace = s.trace ++ [Event.kmalloc reg] ∧
        (s'.heap reg).rtype = MAP_ANONYMOUS ∧ (s'.heap reg).addr = r ∧
        (s'.heap reg).len = u32 length) ∧
    (∀ (s : kstate) (pre post : List Nat) (c : Nat) (env : fault_env) (fuel : Nat)
        (tf : trapframe) (cr2 : Nat),
        isList s.heap s.head (pre ++ c :: post) →
        (∀ q ∈ pre, ¬ (covers s (PGROUNDDOWN cr2) q ∧ permits s tf.err q)) →
        covers s (PGROUNDDOWN cr2) c → permits s tf.err c →
        (s.heap c).rtype = MAP_ANONYMOUS →
        env.mem ≠ 0 → mappages_succeeds s env.tbl (PGROUNDDOWN cr2) → pre.length < fuel →
        ∃ s' perm tb, pagefault_handler s env fuel tf cr2 = some s' ∧
          s'.trace = s.trace ++ [Event.kalloc env.mem,
            Event.mappages (PGROUNDDOWN cr2) PGSIZE (V2P env.mem) perm, Event.switchuvm] ∧
          s'.pgtab tb (PTX (PGROUNDDOWN cr2)) = V2P env.mem ||| perm ||| PTE_P ∧
          (∀ tb' i, s'.pgtab tb' i &&& PTE_P ≠ 0 →
            (tb' = tb ∧ i = PTX (PGROUNDDOWN cr2)) ∨ s'.pgtab tb' i = s.pgtab tb' i) ∧
          (∀ a, env.mem ≤ a → a < env.mem + PGSIZE → s'.kmem a = 0) ∧
          s'.killed = s.killed) := by
  constructor
  · intro s reg fuel hint length prot fd offset r s' h hne
    by_cases hreg : reg = 0
    · simp [mmap, hreg] at h
      exact absurd h.1.symm hne
    · by_cases hfd : fd = -1
      · subst hfd
        rw [mmap_anonymous_unfold s reg fuel hint length prot offset hreg] at h
        obtain ⟨e1, e2, e3, -, -, -, -, -, -, hres⟩ := mmap_link_effect _ reg fuel _ length r s' h
        rcases hres with ⟨e, -⟩ | ⟨t1, -, t3, -, t5, t6, -⟩
        · exact absurd e hne
        · refine ⟨e1, e2, e3, t1, ?_, t3, ?_⟩
          · rw [t6]; simp
          · rw [t5]; simp
      · simp [mmap, hreg, hfd] at h
        exact absurd h.1.symm hne
  · intro s pre post c env fuel tf cr2 hl hpre hc hp hanon hmem hmap hf
    have hscan := fault_scan_first s (PGROUNDDOWN cr2) tf.err c post pre fuel s.head hl
      hpre hc hp hf
    obtain ⟨s3, hm, ht, hk, hh, -, hkm, -, -, -, tb, -, hpte, hothers⟩ := mappages_of_succeeds
      (memset_zero (s.log (Event.kalloc env.mem)) env.mem PGSIZE) env.tbl (PGROUNDDOWN cr2)
      PGSIZE (V2P env.mem)
      (if (s.heap c).prot = PROT_WRITE then PTE_W ||| PTE_U else PTE_U) hmap
    have hpop : fault_populate (s3.log Event.switchuvm) env c = s3.log Event.switchuvm := by
      obtain ⟨-, -, -, -, h⟩ := fault_populate_effect (s3.log Event.switchuvm) env c
      refine h ?_
      show (s3.heap c).rtype ≠ MAP_FILE
      rw [hh]
      show (s.heap c).rtype ≠ MAP_FILE
      rw [hanon]
      decide
    refine ⟨s3.log Event.switchuvm, _, tb, ?_, ?_, hpte, hothers, ?_, hk⟩
    · simp only [pagefault_handler, hscan, if_neg hmem]
      show (match mappages (memset_zero (s.log (Event.kalloc env.mem)) env.mem PGSIZE) env.tbl
        (PGROUNDDOWN cr2) PGSIZE (V2P env.mem)
        (if (s.heap c).prot = PROT_WRITE then PTE_W ||| PTE_U else PTE_U) with
        | mapres.fail s3 => some (fault_error (s3.log (Event.kfree env.mem)) tf)
        | mapres.remap s3 => some s3
        | mapres.ok s3 => some (fault_populate (s3.log Event.switchuvm) env c)) = _
      rw [hm]
      simp only [hpop]
    · show s3.trace ++ [Event.switchuvm] = _
      rw [ht]
      simp [kstate.log, memset_zero]
    · intro a h1 h2
      show s3.kmem a = 0
      rw [hkm]
      simp [kstate.log, memset_zero, h1, h2]

/-! ## Evaluations of the code -/

/-- Claim C1, the code at a process that already has a region (`st_first`, reached by one
`mmap` of a page): `mmap` of three anonymous read-write pages returns `0x5000` and the count
becomes 2; `munmap(0x5000, 12288)` then removes the region (count 1) but returns `-1`.  From
the empty list the same pair of calls returns `0x4000` and then `0`.  In general `munmap`
returns `0` only when the list head is the region asked for. -/
theorem mmap_then_munmap_second_region :
    mmap_then_munmap st_first 200 4 12288 PROT_WRITE MAP_ANONYMOUS (-1) 0
      = some (0x5000, 2, -1, 1) ∧
    mmap_then_munmap st_empty 200 4 12288 PROT_WRITE MAP_ANONYMOUS (-1) 0
      = some (0x4000, 1, 0, 0) ∧
    ∀ (s : kstate) (fuel addr length : Nat) (s' : kstate),
      munmap s fuel addr length = some (0, s') →
      (s.heap s.head).addr = addr ∧ (s.heap s.head).len = length := by
  refine ⟨by decide, by decide, ?_⟩
  intro s fuel addr length s' h
  unfold munmap at h
  split_ifs at h with h1 h2 h3
  · simp at h
  · simp at h
  · exact h3
  · dsimp only at h
    cases hscan : munmap_scan addr length fuel s s.head (s.heap s.head).next with
    | none => rw [hscan] at h; simp at h
    | some s1 => rw [hscan] at h; simp at h

theorem msync_scan_ignores_entries (s : kstate) (pt : Nat → Nat → Nat) (a l : Nat) :
    ∀ (fuel cursor : Nat), msync_scan { s with pgtab := pt } a l fuel cursor =
      (msync_scan s a l fuel cursor).map (fun r => (r.1, { r.2 with pgtab := pt }))
  | 0, _ => rfl
  | fuel + 1, cursor => by
    unfold msync_scan
    by_cases hc : cursor ≠ 0
    · rw [if_pos hc, if_pos hc]
      by_cases hw : (walkpgdir s a).isSome
      · have hw' : (walkpgdir { s with pgtab := pt } a).isSome := hw
        rw [if_pos hw, if_pos hw']
        rfl
      · have hw' : ¬ (walkpgdir { s with pgtab := pt } a).isSome := hw
        rw [if_neg hw, if_neg hw']
        exact msync_scan_ignores_entries s pt a l fuel _
    · rw [if_neg hc, if_neg hc]
      rfl

/-- Claim C3, the code after `mmap(4096, read-only, MAP_FILE, fd, offset 100)` and the first
read fault: the page at `0x4000` is resident and the dirty bit of its entry is clear, yet
`msync(0x4000, 4096)` returns 0 after a `fileseek` to offset 100 and a `filewrite` of the
4096 bytes.  In general the result of `msync` and the calls it makes are the same whatever
the page-table entries hold. -/
theorem msync_clean_page_writes :
    walkpgdir st_file_resident 0x4000 = some (0x3000, 4) ∧
    st_file_resident.pgtab 0x3000 4 &&& PTE_P ≠ 0 ∧
    st_file_resident.pgtab 0x3000 4 &&& PTE_D = 0 ∧
    (msync st_file_resident 1 0x4000 4096).map
        (fun r => (r.1, r.2.trace.drop st_file_resident.trace.length))
      = some (0, [Event.fileseek 77 100, Event.filewrite 77 0x4000 4096]) ∧
    ∀ (s : kstate) (pt : Nat → Nat → Nat) (fuel a l : Nat),
      (msync { s with pgtab := pt } fuel a l).map (fun r => (r.1, r.2.trace)) =
        (msync s fuel a l).map (fun r => (r.1, r.2.trace)) := by
  refine ⟨by decide, by decide, by decide, by decide, ?_⟩
  intro s pt fuel a l
  unfold msync
  by_cases h0 : s.nregions = 0
  · have h0' : ({ s with pgtab := pt } : kstate).nregions = 0 := h0
    rw [if_pos h0, if_pos h0']
    rfl
  · have h0' : ¬ ({ s with pgtab := pt } : kstate).nregions = 0 := h0
    rw [if_neg h0, if_neg h0']
    show (msync_scan { s with pgtab := pt } a l fuel s.head).map _ = _
    rw [msync_scan_ignores_entries s pt a l fuel s.head, Option.map_map]
    rfl

/-- Claim C10, the code at a list whose head starts at `0x5000` and whose second region
starts at `0x4000`, with size counter `0x40c8`: `mmap(100)` returns `0x5000`, the start
address of the head, and stores it in the new region. -/
theorem mmap_returns_start_of_head :
    (st_swapped.sz, st_swapped.nregions, (st_swapped.heap st_swapped.head).addr,
      (st_swapped.heap (st_swapped.heap st_swapped.head).next).addr) = (0x40c8, 2, 0x5000, 0x4000) ∧
    (mmap st_swapped 400 4 0 100 1 0 (-1) 0).map
        (fun r => (r.1, (r.2.heap 400).addr, (r.2.heap r.2.head).addr, r.2.nregions))
      = some (0x5000, 0x5000, 0x5000, 3) := by
  decide

/-! ## Instances of the theorems at concrete states -/

/-- The unmapper in `st_one`, asked for `(0x5000, 4096)`, which matches no region. -/
theorem munmap_no_match_witness :
    isList st_one.heap st_one.head [100] ∧ (st_one.nregions ≠ 0 → [100] ≠ []) ∧
    (∀ q ∈ [100], ¬ ((st_one.heap q).addr = 0x5000 ∧ (st_one.heap q).len = 4096)) ∧
    [100].length ≤ 1 ∧ munmap st_one 1 0x5000 4096 = some (-1, st_one) :=
  ⟨by decide, by decide, by decide, by decide,
    munmap_no_match st_one [100] 1 0x5000 4096 (by decide) (by decide) (by decide) (by decide)⟩

/-- A user-mode write fault at `0x4010` in `st_read_only`. -/
theorem write_fault_read_only_kills_witness :
    isList st_read_only.heap st_read_only.head [100] ∧
    tf_user_write.err &&& T_PGFLT_W ≠ 0 ∧ tf_user_write.cs &&& 3 ≠ 0 ∧
    covers st_read_only (PGROUNDDOWN 0x4010) 100 ∧
    pagefault_handler st_read_only env_ok 2 tf_user_write 0x4010
      = some { st_read_only with killed := 1 } :=
  ⟨by decide, by decide, by decide, by decide,
    write_fault_read_only_kills st_read_only [100] env_ok 2 tf_user_write 0x4010
      (by decide) (by decide) (by decide) (by decide) (by decide)⟩

/-- A user-mode read fault at `0x4010` in `st_read_only`, with a frame and a page-table page
available. -/
theorem read_fault_read_only_maps_user_only_witness :
    isList st_read_only.heap st_read_only.head ([] ++ 100 :: []) ∧
    tf_user_read.err &&& T_PGFLT_W = 0 ∧
    covers st_read_only (PGROUNDDOWN 0x4010) 100 ∧ (st_read_only.heap 100).prot = 0 ∧
    env_ok.mem ≠ 0 ∧ mappages_succeeds st_read_only env_ok.tbl (PGROUNDDOWN 0x4010) ∧
    ∃ s' rest, pagefault_handler st_read_only env_ok 1 tf_user_read 0x4010 = some s' ∧
      s'.killed = st_read_only.killed ∧
      s'.trace = st_read_only.trace ++ [Event.kalloc env_ok.mem,
        Event.mappages (PGROUNDDOWN 0x4010) PGSIZE (V2P env_ok.mem) PTE_U, Event.switchuvm]
        ++ rest ∧
      (∀ e ∈ rest, is_mappages e = false) ∧ PTE_U &&& PTE_W = 0 :=
  ⟨by decide, by decide, by decide, by decide, by decide, by decide,
    read_fault_read_only_maps_user_only st_read_only [] [] 100 env_ok 1 tf_user_read 0x4010
      (by decide) (by decide) (by decide) (by decide) (by decide) (by decide) (by decide)
      (by decide)⟩

/-- An anonymous `mmap` with descriptor 3 in `st_one`. -/
theorem mmap_anonymous_bad_fd_witness :
    (3 : Int) ≠ -1 ∧
    ∃ s', mmap st_one 200 0 0 4096 PROT_WRITE MAP_ANONYMOUS 3 0 = some (MAP_FAILED, s') ∧
      s'.head = 100 ∧ s'.nregions = 1 ∧ isList s'.heap s'.head [100] ∧ s'.sz = 0x6000 := by
  refine ⟨by decide, ?_⟩
  obtain ⟨s', h, h1, h2, -, -, h5, -, h7, -⟩ :=
    mmap_anonymous_bad_fd st_one 200 0 0 4096 PROT_WRITE 3 0 (by decide)
  exact ⟨s', h, h1, h2, (h5 [100] (by decide) (by decide)).1, h7⟩

/-- An anonymous `mmap` of three pages in `st_one`, whose only region starts below
`PGROUNDDOWN(sz)`. -/
theorem mmap_places_at_old_top_witness :
    isList st_one.heap st_one.head [100] ∧ (st_one.nregions ≠ 0 → [100] ≠ []) ∧ 200 ∉ [100] ∧
    (∀ q ∈ [100], (st_one.heap q).addr ≠ PGROUNDDOWN st_one.sz) ∧ [100].length ≤ 1 ∧
    ∃ r s', mmap st_one 200 1 0 12288 PROT_WRITE MAP_ANONYMOUS (-1) 0 = some (r, s') ∧
      (r ≠ MAP_FAILED → r = 0x5000) :=
  ⟨by decide, by decide, by decide, by decide, by decide,
    (mmap_places_at_old_top st_one 200 1 0 12288 PROT_WRITE MAP_ANONYMOUS (-1) 0 [100]
      (by decide) (by decide) (by decide) (by decide) (by decide)).1⟩

/-- An anonymous `mmap` of one page in `st_empty`, and a write fault at `0x4010` in `st_one`. -/
theorem anonymous_mapping_lazy_zero_filled_witness :
    (∃ s', mmap st_empty 100 0 0 4096 PROT_WRITE MAP_ANONYMOUS (-1) 0 = some (0x4000, s') ∧
      0x4000 ≠ MAP_FAILED ∧ s'.pgtab = st_empty.pgtab ∧
      s'.trace = st_empty.trace ++ [Event.kmalloc 100] ∧ (s'.heap 100).rtype = MAP_ANONYMOUS) ∧
    isList st_one.heap st_one.head ([] ++ 100 :: []) ∧
    covers st_one (PGROUNDDOWN 0x4010) 100 ∧ permits st_one tf_user_write.err 100 ∧
    (st_one.heap 100).rtype = MAP_ANONYMOUS ∧ env_ok.mem ≠ 0 ∧
    mappages_succeeds st_one env_ok.tbl (PGROUNDDOWN 0x4010) ∧
    ∃ s' perm tb, pagefault_handler st_one env_ok 1 tf_user_write 0x4010 = some s' ∧
      s'.trace = st_one.trace ++ [Event.kalloc env_ok.mem,
        Event.mappages (PGROUNDDOWN 0x4010) PGSIZE (V2P env_ok.mem) perm, Event.switchuvm] ∧
      s'.pgtab tb (PTX (PGROUNDDOWN 0x4010)) = V2P env_ok.mem ||| perm ||| PTE_P ∧
      (∀ a, env_ok.mem ≤ a → a < env_ok.mem + PGSIZE → s'.kmem a = 0) := by
  have h : mmap st_empty 100 0 0 4096 PROT_WRITE MAP_ANONYMOUS (-1) 0
      = some (0x4000, after st_empty (mmap st_empty 100 0 0 4096 PROT_WRITE MAP_ANONYMOUS (-1) 0)) :=
    rfl
  obtain ⟨-, e2, -, e4, e5, -⟩ := anonymous_mapping_lazy_zero_filled.1 st_empty 100 0 0 4096
    PROT_WRITE (-1) 0 0x4000 _ h (by decide)
  obtain ⟨s', perm, tb, f1, f2, f3, -, f5, -⟩ := anonymous_mapping_lazy_zero_filled.2 st_one [] []
    100 env_ok 1 tf_user_write 0x4010 (by decide) (by decide) (by decide) (by decide)
    (by decide) (by decide) (by decide) (by decide)
  exact ⟨⟨_, h, by decide, e2, e4, e5⟩, by decide, by decide, by decide, by decide, by decide,
    by decide, s', perm, tb, f1, f2, f3, f5⟩

/-- Two calls of `mmap` and one of `munmap` from `st_empty`: every state on the way has its
regions page-aligned. -/
theorem mmap_page_aligned_witness :
    st_empty.head = 0 ∧
    mmap st_empty 100 0 0 4096 PROT_WRITE MAP_ANONYMOUS (-1) 0 = some (0x4000, st_first) ∧
    mmap st_first 200 1 0 12288 PROT_WRITE MAP_ANONYMOUS (-1) 0 = some (0x5000, st_second) ∧
    munmap st_second 2 0x5000 12288 = some (-1, st_third) ∧
    (st_second.nregions ≠ 0 → st_second.head ≠ 0) ∧ 0x5000 ≠ MAP_FAILED ∧
    0x5000 % 4096 = 0 ∧ (st_second.heap 200).addr = 0x5000 ∧
    regions_aligned st_empty ∧ regions_aligned st_first ∧ regions_aligned st_second ∧
    regions_aligned st_third := by
  have m1 : mmap st_empty 100 0 0 4096 PROT_WRITE MAP_ANONYMOUS (-1) 0
      = some (0x4000, st_first) := rfl
  have m2 : mmap st_first 200 1 0 12288 PROT_WRITE MAP_ANONYMOUS (-1) 0
      = some (0x5000, st_second) := rfl
  have m3 : munmap st_second 2 0x5000 12288 = some (-1, st_third) := rfl
  have hn : st_second.nregions ≠ 0 → st_second.head ≠ 0 := by decide
  have h0 : regions_aligned st_empty := mmap_page_aligned.2.1 st_empty rfl
  have h1 : regions_aligned st_first := mmap_page_aligned.2.2.1 _ _ _ _ _ _ _ _ _ _ _ h0 m1
  have h2 : regions_aligned st_second := mmap_page_aligned.2.2.1 _ _ _ _ _ _ _ _ _ _ _ h1 m2
  have h3 : regions_aligned st_third := mmap_page_aligned.2.2.2.1 _ _ _ _ _ _ h2 hn m3
  obtain ⟨a1, a2, -⟩ := mmap_page_aligned.1 _ _ _ _ _ _ _ _ _ _ _ m2 (by decide)
  exact ⟨rfl, m1, m2, m3, hn, by decide, a1, a2, h0, h1, h2, h3⟩

/-! ## The kernel boundary -/

/-- Claim C11, the code where the list is empty or has one region and the size counter has
reached `KERNBASE`: `mmap(4096)` succeeds and returns `0x80000000 = KERNBASE` in both
states (the test of lines 125-130 is inside the loop, which neither state enters), and
`munmap` refuses that address. -/
theorem mmap_returns_kernbase :
    (st_top_empty.sz, st_top_empty.nregions, st_top_empty.head) = (0x80000000, 0, 0) ∧
    (mmap st_top_empty 200 0 0 4096 PROT_WRITE MAP_ANONYMOUS (-1) 0).map
        (fun r => (r.1, decide (r.1 = MAP_FAILED), decide (KERNBASE ≤ r.1), r.2.nregions))
      = some (0x80000000, false, true, 1) ∧
    (st_top_one.sz, st_top_one.nregions, (st_top_one.heap st_top_one.head).next)
      = (0x80000000, 1, 0) ∧
    (mmap st_top_one 200 1 0 4096 PROT_WRITE MAP_ANONYMOUS (-1) 0).map
        (fun r => (r.1, decide (r.1 = MAP_FAILED), decide (KERNBASE ≤ r.1), r.2.nregions))
      = some (0x80000000, false, true, 2) ∧
    (munmap st_top_two 2 0x80000000 4096).map (fun r => (r.1, r.2.nregions)) = some (-1, 2) := by
  decide

/-- Claim C12, the code at a failure after the descriptor was duplicated: in `st_top_two`
(two regions, candidate address above `KERNBASE`) `mmap(4096, MAP_FILE, fd 3)` returns
`(void*)-1` through the test of lines 125-130; head and region count are as before, but
slot 0 of the open-file table, empty before the call, now holds the file, and `filedup`
was called without a matching `fileclose`. -/
theorem mmap_failure_keeps_descriptor :
    (st_top_two.ofile 0, st_top_two.ofile 3, st_top_two.nregions, st_top_two.head)
      = (0, 77, 2, 100) ∧
    (mmap st_top_two 300 2 0 4096 PROT_WRITE MAP_FILE 3 0).map
        (fun r => (r.1, r.2.ofile 0, r.2.nregions, r.2.head,
          r.2.trace.drop st_top_two.trace.length))
      = some (MAP_FAILED, 77, 2, 100,
          [Event.kmalloc 300, Event.filedup 77, Event.kmfree 300]) := by
  decide

/-! ## Pages covered by a region -/

/-- Claim C14: for a region with page-aligned `addr`, `len > 0` and `addr + len` below
`2^32`, the covering test of the handler on `PGROUNDDOWN(a)` holds exactly when
`addr <= a < addr + PGSIZE * ceil(len / PGSIZE)`. -/
theorem covers_iff_within_pages (s : kstate) (q a : Nat)
    (halign : (s.heap q).addr % PGSIZE = 0) (hlen : 0 < (s.heap q).len)
    (hfit : (s.heap q).addr + (s.heap q).len < 4294967296) :
    covers s (PGROUNDDOWN a) q ↔
      ((s.heap q).addr ≤ a ∧
        a < (s.heap q).addr + PGSIZE * (((s.heap q).len + PGSIZE - 1) / PGSIZE)) := by
  unfold covers u32add PGROUNDDOWN PGSIZE at *
  generalize (s.heap q).addr = b at *
  generalize (s.heap q).len = l at *
  rw [Nat.mod_eq_of_lt hfit]
  omega

/-! ## Evaluations of the fault resolver and of the sync engine -/

/-- Claim C15, the code at a fault on the second page of a file-backed region whose first
page is resident and dirty: the handler maps the page at `0x5000` (entry `0x101007`) and
clears the dirty bit in the entry of `0x4000`, the first page of the region
(`0x100047` becomes `0x100007`); the entry reached at lines 80-83 is that of
`cursor->addr`. -/
theorem fault_clears_dirty_of_first_page :
    (st_first_page_dirty.heap st_first_page_dirty.head).addr = 0x4000 ∧
    (st_first_page_dirty.heap st_first_page_dirty.head).len = 0x2000 ∧
    (st_first_page_dirty.heap st_first_page_dirty.head).rtype = MAP_FILE ∧
    pte_of st_first_page_dirty 0x4000 = 0x100047 ∧
    PGROUNDDOWN 0x5008 = 0x5000 ∧
    (pagefault_handler st_first_page_dirty env_second 1 tf_user_write 0x5008).map
        (fun s => (pte_of s 0x4000, pte_of s 0x5000, s.killed))
      = some (0x100007, 0x101007, 0) := by
  decide

/-- Claim C16, the code at a list of two file-backed regions, the second (file `88`,
offset 100, at `0x5000`) with its page resident and dirty: `msync(0x5000, 4096)` seeks the
file `77` of the list head to the head's offset 0 and writes the page there. -/
theorem msync_writes_through_head :
    ((st_two_files.heap st_two_files.head).addr,
      st_two_files.ofile (st_two_files.heap st_two_files.head).fd,
      (st_two_files.heap st_two_files.head).offset) = (0x4000, 77, 0) ∧
    ((st_two_files.heap 200).addr, (st_two_files.heap 200).len,
      st_two_files.ofile (st_two_files.heap 200).fd, (st_two_files.heap 200).offset)
      = (0x5000, 4096, 88, 100) ∧
    (st_two_files.heap st_two_files.head).next = 200 ∧
    pte_of st_two_files 0x5000 &&& PTE_P ≠ 0 ∧ pte_of st_two_files 0x5000 &&& PTE_D ≠ 0 ∧
    (msync st_two_files 2 0x5000 4096).map
        (fun r => (r.1, r.2.trace.drop st_two_files.trace.length))
      = some (0, [Event.fileseek 77 0, Event.filewrite 77 0x5000 4096]) := by
  decide

/-- Claim C19, the code at a region with `prot = 3`: the write fault at `0x4000` passes the
test `prot & PROT_WRITE` and is resolved, but the test `prot == PROT_WRITE` fails and the
installer is called with `PTE_U`; the entry installed has no `PTE_W`.  The write then faults
again, the handler accepts it again and the installer halts the kernel on the entry that is
already present. -/
theorem accepted_write_fault_mapped_read_only :
    (st_prot3.heap st_prot3.head).prot = 3 ∧
    tf_user_write.err &&& T_PGFLT_W ≠ 0 ∧
    (pagefault_handler st_prot3 env_ok 1 tf_user_write 0x4000).map
        (fun s => (s.trace.drop st_prot3.trace.length, pte_of s 0x4000 &&& PTE_W,
          pte_of s 0x4000 &&& PTE_P, s.killed))
      = some ([Event.kalloc 0x80100000, Event.mappages 0x4000 4096 0x100000 PTE_U,
          Event.switchuvm], 0, 1, 0) ∧
    (pagefault_handler st_prot3_mapped env_second 1 tf_user_write_present 0x4000).map
        (fun s => s.trace.drop st_prot3_mapped.trace.length)
      = some [Event.kalloc 0x80101000, Event.mappages 0x4000 4096 0x101000 PTE_U,
          Event.panic_remap] := by
  decide

/-- Claim C20, the code at a list with two adjacent regions of the same address and
length behind the head (`st_twins`: blocks 100, 300, 500, count 3):
`munmap(0x6000, 100)` decrements the count twice but unlinks only the first of the two,
so afterwards the list has the two nodes 100 and 500 (block 500 released while still
linked) and the count is 1. -/
theorem munmap_twins_breaks_count :
    isList st_twins.heap st_twins.head [100, 300, 500] ∧ st_twins.nregions = 3 ∧
    ((st_twins.heap 300).addr, (st_twins.heap 300).len) = (0x6000, 100) ∧
    ((st_twins.heap 500).addr, (st_twins.heap 500).len) = (0x6000, 100) ∧
    (munmap st_twins 3 0x6000 100).map
        (fun r => (r.1, r.2.nregions, decide (isList r.2.heap r.2.head [100, 500]),
          r.2.trace.drop st_twins.trace.length))
      = some (-1, 1, true,
          [Event.deallocuvm 0x412c 0x40c8, Event.switchuvm, Event.kmfree 300,
           Event.deallocuvm 0x40c8 0x4064, Event.switchuvm, Event.kmfree 500]) := by
  decide

/-! ## Appending to a well-formed list -/

theorem isList_next_mem {heap : Nat → mmap_region} (xs : List Nat) (p q : Nat)
    (hl : isList heap p xs) (hq : q ∈ xs) (hn : (heap q).next ≠ 0) : (heap q).next ∈ xs := by
  obtain ⟨pre, post, e1, e2⟩ := isList_suffix xs p q hl hq
  cases post with
  | nil => exact absurd e2.2.2 hn
  | cons n post =>
    have : (heap q).next = n := e2.2.2.1
    rw [e1, this]
    simp

theorem isList_last_of_next_zero {heap : Nat → mmap_region} (xs : List Nat) (p q : Nat)
    (hl : isList heap p xs) (hq : q ∈ xs) (hn : (heap q).next = 0) : ∃ pre, xs = pre ++ [q] := by
  obtain ⟨pre, post, e1, e2⟩ := isList_suffix xs p q hl hq
  cases post with
  | nil => exact ⟨pre, e1⟩
  | cons n post =>
    have h1 : (heap q).next = n := e2.2.2.1
    have h2 : n ≠ 0 := e2.2.2.2.1
    exact absurd (h1.symm.trans hn) h2

theorem isList_snoc {heap heap' : Nat → mmap_region} (last reg : Nat) (hreg : reg ≠ 0)
    (hlast : (heap' last).next = reg) (hend : (heap' reg).next = 0) :
    ∀ (pre : List Nat) (p : Nat), isList heap p (pre ++ [last]) →
      (∀ q ∈ pre, (heap' q).next = (heap q).next) → isList heap' p (pre ++ [last] ++ [reg])
  | [], p, hl, _ => by
    obtain ⟨e, h0, -⟩ := hl
    exact ⟨e, h0, by rw [hlast]; exact ⟨rfl, hreg, hend⟩⟩
  | x :: pre, p, hl, hq => by
    obtain ⟨e, h0, h3⟩ := hl
    refine ⟨e, h0, ?_⟩
    rw [hq x (List.mem_cons_self x pre)]
    exact isList_snoc last reg hreg hlast hend pre _ h3
      (fun r hr => hq r (List.mem_cons_of_mem x hr))

theorem isList_nodup {heap : Nat → mmap_region} :
    ∀ (xs : List Nat) (p : Nat), isList heap p xs → xs.Nodup
  | [], _, _ => List.nodup_nil
  | x :: xs, _, h =>
    List.nodup_cons.mpr
      ⟨isList_head_not_in_tail x xs ⟨rfl, h.2.1, h.2.2⟩, isList_nodup xs _ h.2.2⟩

theorem mmap_scan_last (heap : Nat → mmap_region) (head bump : Nat) (xs : List Nat)
    (hl : isList heap head xs) :
    ∀ (fuel node a last a2 : Nat), node ∈ xs →
      mmap_scan heap head bump fuel node a = some (some (last, a2)) →
      last ∈ xs ∧ (heap last).next = 0
  | 0, _, _, _, _, _, h => by simp [mmap_scan] at h
  | fuel + 1, node, a, last, a2, hnode, h => by
    unfold mmap_scan at h
    split_ifs at h with h1 h2 h3
    · refine mmap_scan_last heap head bump xs hl fuel _ _ last a2 ?_ h
      cases xs with
      | nil => simp at hnode
      | cons x xs =>
        have ex : head = x := hl.1
        by_cases hz : (heap head).next = 0
        · exfalso
          have hxs : isList heap 0 xs := by
            have := hl.2.2
            rw [← ex, hz] at this
            exact this
          cases xs with
          | nil =>
            have : node = head := by rw [ex]; simpa using hnode
            rw [this] at h1
            exact h1 hz
          | cons y ys => exact hxs.2.1 hxs.1.symm
        · exact isList_next_mem (x :: xs) head head hl (by rw [ex]; simp) hz
    · simp at h
    · exact mmap_scan_last heap head bump xs hl fuel _ _ last a2
        (isList_next_mem xs head node hl hnode h1) h
    · simp only [Option.some.injEq, Prod.mk.injEq] at h
      rw [← h.1]
      exact ⟨hnode, not_not.mp h1⟩

/-- The linking phase on a well-formed list: when it succeeds, the block `reg` (not in the
list, with a null `next`) has become the last node, or the head when the count was zero,
and no other field of any node has changed. -/
theorem mmap_link_list (s : kstate) (reg fuel a : Nat) (length : Int) (xs : List Nat)
    (r : Nat) (s' : kstate)
    (hl : isList s.heap s.head xs) (hn : s.nregions ≠ 0 → xs ≠ []) (hfresh : reg ∉ xs)
    (hreg : reg ≠ 0) (hend : (s.heap reg).next = 0)
    (h : mmap_link s reg fuel a length = some (r, s')) (hne : r ≠ MAP_FAILED) :
    s'.nregions = s.nregions + 1 ∧ (s'.heap reg).addr = r ∧ (s'.heap reg).next = 0 ∧
    (s'.heap reg).len = (s.heap reg).len ∧ (s'.heap reg).rtype = (s.heap reg).rtype ∧
    (∀ q ∈ xs, same_fields (s'.heap q) (s.heap q)) ∧
    s'.sz = s.sz ∧ s'.ofile = s.ofile ∧ s'.trace = s.trace ∧
    ((s.nregions = 0 ∧ s'.head = reg ∧ isList s'.heap s'.head [reg]) ∨
     (s.nregions ≠ 0 ∧ s'.head = s.head ∧ isList s'.heap s'.head (xs ++ [reg]))) := by
  unfold mmap_link at h
  by_cases h0 : s.nregions = 0
  · rw [if_pos h0] at h
    simp only [mmap_finish, Option.some.injEq, Prod.mk.injEq, Function.update_same] at h
    obtain ⟨hr, hs⟩ := h
    subst hs
    refine ⟨rfl, by simp [hr], by simp [hend], by simp, by simp, fun q hq => ?_, rfl, rfl, rfl,
      Or.inl ⟨h0, rfl, rfl, hreg, by simp [hend, isList]⟩⟩
    have : q ≠ reg := fun e => hfresh (e ▸ hq)
    simp [same_fields, Function.update_noteq this]
  · rw [if_neg h0] at h
    dsimp only at h
    cases hscan : mmap_scan s.heap s.head (PGROUNDDOWN (u32 (PGSIZE + length))) fuel s.head
      (if a = (s.heap s.head).addr then u32add a (PGROUNDDOWN (u32 (PGSIZE + length))) else a) with
    | none => rw [hscan] at h; simp at h
    | some res =>
      rw [hscan] at h
      cases res with
      | none =>
        simp only [Option.some.injEq, Prod.mk.injEq] at h
        exact absurd h.1.symm hne
      | some pr =>
        obtain ⟨node, a2⟩ := pr
        have hne0 := hn h0
        have hhead : s.head ∈ xs := by
          cases xs with
          | nil => exact absurd rfl hne0
          | cons x xs => rw [hl.1]; simp
        obtain ⟨hmem, hz⟩ := mmap_scan_last s.heap s.head _ xs hl fuel s.head _ node a2 hhead hscan
        obtain ⟨pre, hpre⟩ := isList_last_of_next_zero xs s.head node hl hmem hz
        have hnr : node ≠ reg := fun e => hfresh (e ▸ hmem)
        simp only [mmap_finish, Option.some.injEq, Prod.mk.injEq, Function.update_same] at h
        obtain ⟨hr, hs⟩ := h
        subst hs
        refine ⟨rfl, by simp [hr], ?_, ?_, ?_, fun q hq => ?_, rfl, rfl, rfl,
          Or.inr ⟨h0, rfl, ?_⟩⟩
        · simp [Function.update_noteq hnr.symm, hend]
        · simp [Function.update_noteq hnr.symm]
        · simp [Function.update_noteq hnr.symm]
        · have hqr : q ≠ reg := fun e => hfresh (e ▸ hq)
          by_cases hqn : q = node
          · subst hqn
            simp [same_fields, Function.update_noteq hqr]
          · simp [same_fields, Function.update_noteq hqr, Function.update_noteq hqn]
        · rw [hpre]
          rw [hpre] at hl
          refine isList_snoc node reg hreg ?_ ?_ pre s.head hl (fun q hq => ?_)
          · simp [Function.update_noteq hnr]
          · simp [Function.update_noteq hnr.symm, hend]
          · have hq' : q ∈ xs := by rw [hpre]; simp [hq]
            have hqr : q ≠ reg := fun e => hfresh (e ▸ hq')
            have hqn : q ≠ node := by
              intro e
              subst e
              have hnd : (pre ++ [q]).Nodup := isList_nodup _ _ hl
              exact (List.nodup_append.mp hnd).2.2 hq (List.mem_singleton_self q)
            simp [Function.update_noteq hqr, Function.update_noteq hqn]

/-- A successful `mmap` on a well-formed list, with a block from `kmalloc` that is not in
the list. -/
theorem mmap_success_list (s : kstate) (reg fuel hint : Nat)
    (length prot flags fd offset : Int) (xs : List Nat) (r : Nat) (s' : kstate)
    (hl : isList s.heap s.head xs) (hn : s.nregions ≠ 0 → xs ≠ []) (hfresh : reg ∉ xs)
    (h : mmap s reg fuel hint length prot flags fd offset = some (r, s'))
    (hne : r ≠ MAP_FAILED) :
    s'.nregions = s.nregions + 1 ∧ (s'.heap reg).addr = r ∧ (s'.heap reg).next = 0 ∧
    (s'.heap reg).len = u32 length ∧ (s'.heap reg).rtype = flags ∧
    (∀ q ∈ xs, same_fields (s'.heap q) (s.heap q)) ∧ s'.sz = u32 (s.sz + length) ∧
    ((s.nregions = 0 ∧ s'.head = reg ∧ isList s'.heap s'.head [reg]) ∨
     (s.nregions ≠ 0 ∧ s'.head = s.head ∧ isList s'.heap s'.head (xs ++ [reg]))) := by
  rcases mmap_cases s reg fuel hint length prot flags fd offset with
    ⟨s1, h1, -, -⟩ | ⟨s2, h2, hreg, ⟨hh, hnr, hheap, -, -, -, -, hsz⟩, -, hnx, hlen, hrt, -, -⟩
  · rw [h1] at h
    simp only [Option.some.injEq, Prod.mk.injEq] at h
    exact absurd h.1.symm hne
  · rw [h2] at h
    have hq : ∀ q ∈ xs, s2.heap q = s.heap q := fun q hq => hheap q (fun e => hfresh (e ▸ hq))
    have hl2 : isList s2.heap s2.head xs := by
      rw [hh]
      exact isList_frame xs _ hl (fun q h => by rw [hq q h])
    obtain ⟨e1, e2, e3, e4, e5, e6, e7, -, -, e10⟩ :=
      mmap_link_list s2 reg fuel _ length xs r s' hl2 (hnr ▸ hn) hfresh hreg hnx h hne
    refine ⟨by rw [e1, hnr], e2, e3, by rw [e4, hlen], by rw [e5, hrt], fun q hq' => ?_,
      by rw [e7, hsz], ?_⟩
    · have := e6 q hq'
      rw [hq q hq'] at this
      exact this
    · rw [hnr, hh] at e10
      exact e10

/-- Claim C17: on a well-formed list whose count is zero exactly when it is empty, and with
a block from `kmalloc` that is not in the list, a successful `mmap` increases the region
count by one, makes the new region the head when the list was empty and the last node
otherwise, and leaves every earlier region at its position with the same `addr`, `len`,
`prot`, `rtype`, `fd` and `offset`. -/
theorem mmap_appends_region (s : kstate) (reg fuel hint : Nat)
    (length prot flags fd offset : Int) (xs : List Nat) (r : Nat) (s' : kstate)
    (hl : isList s.heap s.head xs) (hn : s.nregions = 0 ↔ xs = []) (hfresh : reg ∉ xs)
    (h : mmap s reg fuel hint length prot flags fd offset = some (r, s'))
    (hne : r ≠ MAP_FAILED) :
    s'.nregions = s.nregions + 1 ∧ isList s'.heap s'.head (xs ++ [reg]) ∧
    (xs = [] → s'.head = reg) ∧ (xs ≠ [] → s'.head = s.head) ∧
    (xs ++ [reg]).getLast? = some reg ∧
    ∀ q ∈ xs, same_fields (s'.heap q) (s.heap q) := by
  obtain ⟨e1, -, -, -, -, e6, -, e8⟩ := mmap_success_list s reg fuel hint length prot flags fd
    offset xs r s' hl (fun h0 hx => h0 (hn.mpr hx)) hfresh h hne
  rcases e8 with ⟨h0, hh, hlist⟩ | ⟨h0, hh, hlist⟩
  · have hx := hn.mp h0
    subst hx
    exact ⟨e1, hlist, fun _ => hh, fun hx => absurd rfl hx, by simp, e6⟩
  · exact ⟨e1, hlist, fun hx => absurd (hn.mpr hx) h0, fun _ => hh, by simp, e6⟩

/-! ## Round trip of `mmap` and `munmap` -/

theorem munmap_release_counts (s : kstate) (node length : Nat) :
    (munmap_release s node length).sz = (deallocuvm s s.sz (u32sub s.sz length)).1 ∧
    (munmap_release s node length).nregions = s.nregions - 1 := by
  unfold munmap_release deallocuvm
  simp only [kstate.log]
  split_ifs <;> exact ⟨rfl, rfl⟩

theorem delete_mmap_node_counts (s : kstate) (node prev : Nat) :
    (delete_mmap_node s node prev).sz = s.sz ∧
    (delete_mmap_node s node prev).nregions = s.nregions := by
  unfold delete_mmap_node
  simp only [kstate.log]
  split_ifs <;> exact ⟨rfl, rfl⟩

theorem deallocuvm_shrinks (s : kstate) (oldsz newsz : Nat) (h : newsz < oldsz) :
    (deallocuvm s oldsz newsz).1 = newsz := by
  unfold deallocuvm
  simp only [kstate.log]
  rw [if_neg (by omega)]

/-- The loop of `munmap` on a list whose last node is the only one that matches. -/
theorem munmap_scan_unique_last (addr length reg : Nat) :
    ∀ (pre : List Nat) (fuel : Nat) (s : kstate) (node next : Nat),
      isList s.heap node (node :: (pre ++ [reg])) → next = (s.heap node).next →
      (∀ q ∈ pre, ¬ ((s.heap q).addr = addr ∧ (s.heap q).len = length)) →
      ((s.heap reg).addr = addr ∧ (s.heap reg).len = length) →
      pre.length + 1 < fuel →
      ∃ s', munmap_scan addr length fuel s node next = some s' ∧
        s'.sz = (deallocuvm s s.sz (u32sub s.sz length)).1 ∧ s'.nregions = s.nregions - 1
  | [], fuel, s, node, next, hl, hnext, _, hm, hf => by
    match fuel, hf with
    | f + 2, _ =>
      obtain ⟨-, hnode, hq, hreg0, hend⟩ := hl
      have hend0 : (s.heap reg).next = 0 := hend
      have hnr : next = reg := hnext.trans hq
      subst hnr
      have hnotin : node ∉ [next] := isList_head_not_in_tail node [next]
        ⟨rfl, hnode, hq, hreg0, hend⟩
      have hne : next ≠ node := fun e => hnotin (by simp [e])
      unfold munmap_scan
      rw [if_pos hreg0]
      dsimp only
      rw [if_pos hm]
      have hz : ((delete_mmap_node (munmap_release s next length) next node).heap next).next
          = 0 := by
        rw [delete_mmap_node_next _ _ _ _ hne, munmap_release_heap]
        exact hend0
      rw [hz]
      refine ⟨delete_mmap_node (munmap_release s next length) next node,
        by simp [munmap_scan], ?_, ?_⟩
      · rw [(delete_mmap_node_counts _ _ _).1, (munmap_release_counts _ _ _).1]
      · rw [(delete_mmap_node_counts _ _ _).2, (munmap_release_counts _ _ _).2]
  | x :: pre, fuel, s, node, next, hl, hnext, hno, hm, hf => by
    cases fuel with
    | zero => simp at hf
    | succ n =>
      obtain ⟨-, -, hq, hx0, hrest⟩ := hl
      have hnx : next = x := hnext.trans hq
      subst hnx
      have hnm := hno next (List.mem_cons_self next pre)
      unfold munmap_scan
      rw [if_pos hx0]
      dsimp only
      rw [if_neg hnm]
      exact munmap_scan_unique_last addr length reg pre n s next _ ⟨rfl, hx0, hrest⟩ rfl
        (fun r hr => hno r (List.mem_cons_of_mem next hr)) hm (by simpa using hf)

/-- Claim C13: on a well-formed list with a non-negative count, for `L > 0` with `sz + L`
below `2^32`: when `mmap(L, MAP_ANONYMOUS, fd = -1)` returns an address `A` below `KERNBASE`
and no region already in the list has start `A` and length `L`, the following
`munmap(A, L)` returns and leaves the size counter and the region count at the values
they had before the `mmap`. -/
theorem mmap_munmap_round_trip (s : kstate) (reg fuel fuel2 hint : Nat) (L prot offset : Int)
    (xs : List Nat) (A : Nat) (s' : kstate)
    (hl : isList s.heap s.head xs) (hn : s.nregions ≠ 0 → xs ≠ []) (hpos : 0 ≤ s.nregions)
    (hfresh : reg ∉ xs) (hL : 0 < L) (hfit : (s.sz : Int) + L < 4294967296)
    (h : mmap s reg fuel hint L prot MAP_ANONYMOUS (-1) offset = some (A, s'))
    (hne : A ≠ MAP_FAILED) (hA : A < KERNBASE)
    (huniq : ∀ q ∈ xs, ¬ ((s.heap q).addr = A ∧ (s.heap q).len = u32 L))
    (hf : (xs ++ [reg]).length ≤ fuel2) :
    ∃ r s'', munmap s' fuel2 A (u32 L) = some (r, s'') ∧ s''.sz = s.sz ∧
      s''.nregions = s.nregions := by
  obtain ⟨e1, e2, e3, e4, e5, e6, e7, e8⟩ := mmap_success_list s reg fuel hint L prot
    MAP_ANONYMOUS (-1) offset xs A s' hl hn hfresh h hne
  have hLn : u32 L = L.toNat := by
    unfold u32
    rw [Int.emod_eq_of_lt (le_of_lt hL) (by omega)]
  have hsz : s'.sz = s.sz + L.toNat := by
    rw [e7]
    unfold u32
    rw [Int.emod_eq_of_lt (by omega) hfit]
    omega
  have hLpos : 0 < L.toNat := by omega
  have hszlt : s.sz + L.toNat < 4294967296 := by omega
  have hdealloc : ∀ t : kstate, (deallocuvm t s'.sz (u32sub s'.sz (u32 L))).1 = s.sz := by
    intro t
    have hsub : u32sub s'.sz (u32 L) = s.sz := by
      rw [hsz, hLn]
      unfold u32sub
      omega
    rw [hsub]
    exact deallocuvm_shrinks t _ _ (by omega)
  have hguard : ¬ (A = KERNBASE ∨ A > KERNBASE ∨ u32 L ≤ 0) := by
    rw [hLn]
    omega
  have hcount : ¬ s'.nregions = 0 := by omega
  have hmatch : (s'.heap reg).addr = A ∧ (s'.heap reg).len = u32 L := ⟨e2, e4⟩
  unfold munmap
  rw [if_neg hguard, if_neg hcount]
  dsimp only
  rcases e8 with ⟨-, hh, -⟩ | ⟨h0, hh, hlist⟩
  · rw [if_pos (by rw [hh]; exact hmatch)]
    refine ⟨0, _, rfl, ?_, ?_⟩
    · rw [(delete_mmap_node_counts _ _ _).1, (munmap_release_counts _ _ _).1]
      exact hdealloc s'
    · rw [(delete_mmap_node_counts _ _ _).2, (munmap_release_counts _ _ _).2, e1]
      omega
  · cases xs with
    | nil => exact absurd rfl (hn h0)
    | cons x t =>
      have hx : s'.head = x := hlist.1
      have hxf := e6 x (List.mem_cons_self x t)
      have hnomatch : ¬ ((s'.heap s'.head).addr = A ∧ (s'.heap s'.head).len = u32 L) := by
        rw [hx, hxf.1, hxf.2.1]
        exact huniq x (List.mem_cons_self x t)
      rw [if_neg hnomatch]
      obtain ⟨s'', hs, hsz'', hnr''⟩ := munmap_scan_unique_last A (u32 L) reg t fuel2 s' s'.head
        (s'.heap s'.head).next (by rw [hx] at hlist ⊢; exact hlist) rfl
        (fun q hq => by
          have hqf := e6 q (List.mem_cons_of_mem x hq)
          rw [hqf.1, hqf.2.1]
          exact huniq q (List.mem_cons_of_mem x hq))
        hmatch (by simp at hf; omega)
      refine ⟨-1, s'', by rw [hs], ?_, ?_⟩
      · rw [hsz'']
        exact hdealloc s'
      · rw [hnr'', e1]
        omega

/-! ## Termination of the collision loop -/

/-- At the second node of the list, with a candidate at or above `KERNBASE` that is not the
start of that node, the loop ends at once. -/
theorem mmap_scan_upper (heap : Nat → mmap_region) (head bump : Nat) (fuel v : Nat)
    (hv : KERNBASE ≤ v) (hne : v ≠ (heap (heap head).next).addr) :
    ∃ r, mmap_scan heap head bump (fuel + 1) (heap head).next v = some r := by
  unfold mmap_scan
  by_cases h1 : (heap (heap head).next).next ≠ 0
  · rw [if_pos h1, if_neg hne, if_pos (by omega)]
    exact ⟨_, rfl⟩
  · rw [if_neg h1]
    exact ⟨_, rfl⟩

/-- The last climb: once the start of the second node is not the first value at or above
`KERNBASE` that the candidate can reach, every collision brings the candidate closer to
`KERNBASE` and the loop ends. -/
theorem mmap_scan_final_climb (heap : Nat → mmap_region) (head bump : Nat) (t : List Nat)
    (B : Nat) (hb0 : 0 < bump) (hbK : bump < KERNBASE)
    (hn1 : isList heap (heap head).next ((heap head).next :: t)) (hB : t.length < B) :
    ∀ (fuel node : Nat) (rest : List Nat) (addr : Nat),
      isList heap node (node :: rest) → rest.length < B → addr < KERNBASE →
      (∀ j, addr + j * bump = (heap (heap head).next).addr →
        KERNBASE + bump ≤ (heap (heap head).next).addr) →
      (KERNBASE - addr) * B + rest.length < fuel →
      ∃ r, mmap_scan heap head bump fuel node addr = some r := by
  intro fuel
  induction fuel with
  | zero => intro _ _ _ _ _ _ _ hm; omega
  | succ f ih =>
    intro node rest addr hl hr ha hfc hm
    cases rest with
    | nil =>
      have hz : (heap node).next = 0 := hl.2.2
      unfold mmap_scan
      rw [if_neg (by simp [hz])]
      exact ⟨_, rfl⟩
    | cons x rest' =>
      have hx : (heap node).next = x := hl.2.2.1
      have hx0 : x ≠ 0 := hl.2.2.2.1
      have hK : KERNBASE = 2147483648 := rfl
      have hmul : (KERNBASE - addr) * B = (KERNBASE - addr - 1) * B + B := by
        have : KERNBASE - addr = (KERNBASE - addr - 1) + 1 := by omega
        conv_lhs => rw [this, Nat.add_mul, Nat.one_mul]
      by_cases hc : addr = (heap node).addr
      · have hadd : u32add addr bump = addr + bump := by
          unfold u32add
          exact Nat.mod_eq_of_lt (by omega)
        by_cases hlt : addr + bump < KERNBASE
        · have hstep : mmap_scan heap head bump (f + 1) node addr
              = mmap_scan heap head bump f (heap head).next (addr + bump) := by
            conv_lhs => unfold mmap_scan
            rw [if_pos (by rw [hx]; exact hx0), if_pos hc, hadd]
          rw [hstep]
          refine ih _ t _ hn1 hB hlt (fun j hj => hfc (j + 1) ?_) ?_
          · rw [Nat.add_mul, Nat.one_mul]
            omega
          · have hle : (KERNBASE - (addr + bump)) * B ≤ (KERNBASE - addr - 1) * B :=
              Nat.mul_le_mul_right B (by omega)
            simp only [List.length_cons] at hm
            omega
        · have hf1 : 1 ≤ f := by
            have : 0 < B := by omega
            simp only [List.length_cons] at hm
            omega
          obtain ⟨f', rfl⟩ : ∃ f', f = f' + 1 := ⟨f - 1, by omega⟩
          have hstep : mmap_scan heap head bump (f' + 1 + 1) node addr
              = mmap_scan heap head bump (f' + 1) (heap head).next (addr + bump) := by
            conv_lhs => unfold mmap_scan
            rw [if_pos (by rw [hx]; exact hx0), if_pos hc, hadd]
          rw [hstep]
          refine mmap_scan_upper heap head bump f' _ (by omega) (fun e => ?_)
          have := hfc 1 (by rw [Nat.one_mul]; exact e)
          omega
      · have hstep : mmap_scan heap head bump (f + 1) node addr
            = mmap_scan heap head bump f x addr := by
          conv_lhs => unfold mmap_scan
          rw [if_pos (by rw [hx]; exact hx0), if_neg hc, if_neg (by omega), hx]
        rw [hstep]
        refine ih x rest' addr ⟨rfl, hx0, hl.2.2.2.2⟩ ?_ ha hfc ?_
        · simp only [List.length_cons] at hr
          omega
        · simp only [List.length_cons] at hm
          omega

theorem no_third_of_two_pow (bump j : Nat) (h1 : 1073741824 < bump) (h2 : bump < 2147483648)
    (h : (j + 1) * bump = 4294967296) : False := by
  rcases j with _ | _ | _ | j
  · omega
  · omega
  · omega
  · have : (j + 1 + 1 + 1 + 1) * bump = j * bump + 4 * bump := by ring
    rw [this] at h
    omega

/-- At the second node of the list with the candidate equal to its start, at or above
`KERNBASE`: the collision either leaves the candidate above `KERNBASE`, where the loop ends,
or wraps it around to a value from which the start of the second node is not met again. -/
theorem mmap_scan_at_upper_collision (heap : Nat → mmap_region) (head bump : Nat)
    (t : List Nat) (B : Nat) (hb0 : 0 < bump) (hbK : bump < KERNBASE)
    (hn1 : isList heap (heap head).next ((heap head).next :: t)) (hB : t.length < B)
    (fuel : Nat) (hc : KERNBASE ≤ (heap (heap head).next).addr)
    (hc32 : (heap (heap head).next).addr < 4294967296)
    (hfuel : KERNBASE * B + B + 1 < fuel) :
    ∃ r, mmap_scan heap head bump fuel (heap head).next (heap (heap head).next).addr
      = some r := by
  have hK : KERNBASE = 2147483648 := rfl
  obtain ⟨f, rfl⟩ : ∃ f, fuel = f + 1 + 1 := ⟨fuel - 2, by omega⟩
  by_cases hnx : (heap (heap head).next).next ≠ 0
  · have hstep : mmap_scan heap head bump (f + 1 + 1) (heap head).next
          (heap (heap head).next).addr
        = mmap_scan heap head bump (f + 1) (heap head).next
          (u32add (heap (heap head).next).addr bump) := by
      conv_lhs => unfold mmap_scan
      rw [if_pos hnx, if_pos rfl]
    rw [hstep]
    by_cases hwrap : (heap (heap head).next).addr + bump < 4294967296
    · have hadd : u32add (heap (heap head).next).addr bump
          = (heap (heap head).next).addr + bump := by
        unfold u32add
        exact Nat.mod_eq_of_lt hwrap
      rw [hadd]
      exact mmap_scan_upper heap head bump f _ (by omega) (by omega)
    · have hadd : u32add (heap (heap head).next).addr bump
          = (heap (heap head).next).addr + bump - 4294967296 := by
        unfold u32add
        omega
      rw [hadd]
      refine mmap_scan_final_climb heap head bump t B hb0 hbK hn1 hB (f + 1) _ t _ hn1 hB
        (by omega) (fun j hj => ?_) ?_
      · by_contra hlt
        have h3 : (j + 1) * bump = 4294967296 := by
          rw [Nat.add_mul, Nat.one_mul]
          omega
        exact no_third_of_two_pow bump j (by omega) (by omega) h3
      · have hle : (KERNBASE - ((heap (heap head).next).addr + bump - 4294967296)) * B
            ≤ KERNBASE * B := Nat.mul_le_mul_right B (by omega)
        omega
  · unfold mmap_scan
    rw [if_neg hnx]
    exact ⟨_, rfl⟩

/-- The collision loop ends: from any node of the tail of a well-formed list and any
candidate below `KERNBASE`, with a bump between 1 and `KERNBASE - 1`. -/
theorem mmap_scan_terminates (heap : Nat → mmap_region) (head bump : Nat) (t : List Nat)
    (B : Nat) (hb0 : 0 < bump) (hbK : bump < KERNBASE)
    (hn1 : isList heap (heap head).next ((heap head).next :: t)) (hB : t.length < B) :
    ∀ (fuel node : Nat) (rest : List Nat) (addr : Nat),
      isList heap node (node :: rest) → rest.length < B → addr < KERNBASE →
      (KERNBASE - addr + KERNBASE + 3) * B + rest.length < fuel →
      ∃ r, mmap_scan heap head bump fuel node addr = some r := by
  intro fuel
  induction fuel with
  | zero => intro _ _ _ _ _ _ hm; omega
  | succ f ih =>
    intro node rest addr hl hr ha hm
    cases rest with
    | nil =>
      have hz : (heap node).next = 0 := hl.2.2
      unfold mmap_scan
      rw [if_neg (by simp [hz])]
      exact ⟨_, rfl⟩
    | cons x rest' =>
      have hx : (heap node).next = x := hl.2.2.1
      have hx0 : x ≠ 0 := hl.2.2.2.1
      have hK : KERNBASE = 2147483648 := rfl
      have hBpos : 0 < B := by omega
      have hmul : (KERNBASE - addr + KERNBASE + 3) * B
          = (KERNBASE - addr - 1) * B + KERNBASE * B + 4 * B := by
        have : KERNBASE - addr + KERNBASE + 3 = (KERNBASE - addr - 1) + KERNBASE + 4 := by omega
        rw [this]
        ring
      simp only [List.length_cons] at hm hr
      by_cases hc : addr = (heap node).addr
      · have hadd : u32add addr bump = addr + bump := by
          unfold u32add
          exact Nat.mod_eq_of_lt (by omega)
        have hstep : mmap_scan heap head bump (f + 1) node addr
            = mmap_scan heap head bump f (heap head).next (addr + bump) := by
          conv_lhs => unfold mmap_scan
          rw [if_pos (by rw [hx]; exact hx0), if_pos hc, hadd]
        rw [hstep]
        by_cases hlt : addr + bump < KERNBASE
        · refine ih _ t _ hn1 hB hlt ?_
          have hle : (KERNBASE - (addr + bump)) * B ≤ (KERNBASE - addr - 1) * B :=
            Nat.mul_le_mul_right B (by omega)
          have hmul2 : (KERNBASE - (addr + bump) + KERNBASE + 3) * B
              = (KERNBASE - (addr + bump)) * B + KERNBASE * B + 3 * B := by ring
          omega
        · by_cases he : addr + bump = (heap (heap head).next).addr
          · rw [he]
            exact mmap_scan_at_upper_collision heap head bump t B hb0 hbK hn1 hB f
              (by omega) (by omega) (by omega)
          · obtain ⟨f', rfl⟩ : ∃ f', f = f' + 1 := ⟨f - 1, by omega⟩
            exact mmap_scan_upper heap head bump f' _ (by omega) he
      · have hstep : mmap_scan heap head bump (f + 1) node addr
            = mmap_scan heap head bump f x addr := by
          conv_lhs => unfold mmap_scan
          rw [if_pos (by rw [hx]; exact hx0), if_neg hc, if_neg (by omega), hx]
        rw [hstep]
        exact ih x rest' addr ⟨rfl, hx0, hl.2.2.2.2⟩ (by omega) ha (by omega)

theorem mmap_link_returns (s : kstate) (reg fuel a : Nat) (length : Int) (xs : List Nat)
    (hl : isList s.heap s.head xs) (hn : s.nregions ≠ 0 → xs ≠ [])
    (ha : a < 4294967296)
    (hb0 : 0 < PGROUNDDOWN (u32 (PGSIZE + length)))
    (hbK : PGROUNDDOWN (u32 (PGSIZE + length)) < KERNBASE)
    (hf : (2 * KERNBASE + 4) * xs.length < fuel) :
    ∃ r s', mmap_link s reg fuel a length = some (r, s') := by
  have hK : KERNBASE = 2147483648 := rfl
  unfold mmap_link
  by_cases h0 : s.nregions = 0
  · rw [if_pos h0]
    exact ⟨_, _, rfl⟩
  · rw [if_neg h0]
    dsimp only
    have hscan : ∃ res, mmap_scan s.heap s.head (PGROUNDDOWN (u32 (PGSIZE + length))) fuel s.head
        (if a = (s.heap s.head).addr then u32add a (PGROUNDDOWN (u32 (PGSIZE + length))) else a)
        = some res := by
      generalize hbump : PGROUNDDOWN (u32 (PGSIZE + length)) = bump at hb0 hbK ⊢
      generalize haddr : (if a = (s.heap s.head).addr then u32add a bump else a) = addr1
      have hne1 : addr1 ≠ (s.heap s.head).addr := by
        rw [← haddr]
        split_ifs with e
        · rw [← e]
          unfold u32add
          omega
        · exact e
      have h132 : addr1 < 4294967296 := by
        rw [← haddr]
        split_ifs
        · unfold u32add
          omega
        · exact ha
      cases xs with
      | nil => exact absurd rfl (hn h0)
      | cons x rest0 =>
        have hx : s.head = x := hl.1
        have hl' : isList s.heap s.head (s.head :: rest0) := by rw [hx] at hl ⊢; exact hl
        simp only [List.length_cons] at hf
        cases rest0 with
        | nil =>
          have hz : (s.heap s.head).next = 0 := hl'.2.2
          obtain ⟨f, rfl⟩ : ∃ f, fuel = f + 1 := ⟨fuel - 1, by omega⟩
          unfold mmap_scan
          rw [if_neg (by simp [hz])]
          exact ⟨_, rfl⟩
        | cons n1 t =>
          have hn1 : (s.heap s.head).next = n1 := hl'.2.2.1
          have hn10 : n1 ≠ 0 := hl'.2.2.2.1
          simp only [List.length_cons] at hf
          by_cases hlt : addr1 < KERNBASE
          · refine mmap_scan_terminates s.heap s.head bump t (t.length + 2) hb0 hbK
              (by rw [hn1]; exact ⟨rfl, hn10, hl'.2.2.2.2⟩) (by omega) fuel s.head (n1 :: t)
              addr1 hl' (by simp) hlt ?_
            have hle : (KERNBASE - addr1 + KERNBASE + 3) * (t.length + 2)
                ≤ (2 * KERNBASE + 3) * (t.length + 2) := Nat.mul_le_mul_right _ (by omega)
            have e1 : (2 * KERNBASE + 4) * (t.length + 1 + 1)
                = (2 * KERNBASE + 3) * (t.length + 2) + (t.length + 2) := by ring
            simp only [List.length_cons]
            omega
          · obtain ⟨f, rfl⟩ : ∃ f, fuel = f + 1 := ⟨fuel - 1, by omega⟩
            unfold mmap_scan
            rw [if_pos (by rw [hn1]; exact hn10), if_neg hne1, if_pos (by omega)]
            exact ⟨_, rfl⟩
    obtain ⟨res, hres⟩ := hscan
    rw [hres]
    cases res with
    | none => exact ⟨_, _, rfl⟩
    | some pr =>
      obtain ⟨node, a2⟩ := pr
      exact ⟨_, _, rfl⟩

/-- Termination of `mmap` when the step does not overflow: on a well-formed list, with a
block from `kmalloc` that is not in the list and a size counter that is a 32-bit value, for
every `length > 0` whose sum with `PGSIZE` fits an `int`, `mmap` returns (an address or
`(void*)-1`) as soon as it has fuel for `(2 * KERNBASE + 4)` loop iterations per node. -/
theorem mmap_terminates (s : kstate) (reg fuel hint : Nat) (length prot flags fd offset : Int)
    (xs : List Nat)
    (hl : isList s.heap s.head xs) (hn : s.nregions ≠ 0 → xs ≠ []) (hfresh : reg ∉ xs)
    (hsz : s.sz < 4294967296) (hlen : 0 < length) (hfit : PGSIZE + length < 2147483648)
    (hf : (2 * KERNBASE + 4) * xs.length < fuel) :
    ∃ r s', mmap s reg fuel hint length prot flags fd offset = some (r, s') := by
  have hbump : u32 (PGSIZE + length) = (PGSIZE + length).toNat := by
    unfold u32
    rw [Int.emod_eq_of_lt (by unfold PGSIZE; omega) (by omega)]
  have hb0 : 0 < PGROUNDDOWN (u32 (PGSIZE + length)) := by
    rw [hbump]
    unfold PGROUNDDOWN PGSIZE at *
    omega
  have hbK : PGROUNDDOWN (u32 (PGSIZE + length)) < KERNBASE := by
    rw [hbump]
    unfold PGROUNDDOWN PGSIZE KERNBASE at *
    omega
  rcases mmap_cases s reg fuel hint length prot flags fd offset with
    ⟨s1, h1, -, -⟩ | ⟨s2, h2, -, ⟨hh, hnr, hheap, -⟩, -⟩
  · exact ⟨_, _, h1⟩
  · rw [h2]
    have hq : ∀ q ∈ xs, s2.heap q = s.heap q := fun q hq => hheap q (fun e => hfresh (e ▸ hq))
    refine mmap_link_returns s2 reg fuel _ length xs ?_ (hnr ▸ hn) ?_ hb0 hbK hf
    · rw [hh]
      exact isList_frame xs _ hl (fun q h => by rw [hq q h])
    · unfold PGROUNDDOWN
      omega

/-- A cycle of the collision loop: with a bump that takes `X` to `X2` and `X2` back to `X`,
the second node starting at `X2` and the third at `X < KERNBASE`, the loop started at the
head with candidate `X` returns for no amount of fuel. -/
theorem mmap_scan_cycle (H : Nat → mmap_region) (head bump X X2 : Nat)
    (hh : (H head).next ≠ 0) (hha : X ≠ (H head).addr)
    (h1n : (H (H head).next).next ≠ 0) (h1a : (H (H head).next).addr = X2)
    (h2n : (H (H (H head).next).next).next ≠ 0) (h2a : (H (H (H head).next).next).addr = X)
    (hX : X < KERNBASE) (hne : X ≠ X2)
    (hup : u32add X bump = X2) (hdown : u32add X2 bump = X) :
    ∀ fuel : Nat, mmap_scan H head bump fuel head X = none := by
  have hK : ¬ (X = KERNBASE ∨ X > KERNBASE) := by omega
  have key : ∀ fuel : Nat,
      mmap_scan H head bump fuel (H head).next X = none ∧
      mmap_scan H head bump fuel (H (H head).next).next X = none ∧
      mmap_scan H head bump fuel (H head).next X2 = none := by
    intro fuel
    induction fuel with
    | zero => exact ⟨rfl, rfl, rfl⟩
    | succ f ih =>
      obtain ⟨e1, e2, e3⟩ := ih
      refine ⟨?_, ?_, ?_⟩
      · conv_lhs => unfold mmap_scan
        rw [if_pos h1n, if_neg (by rw [h1a]; exact hne), if_neg hK]
        exact e2
      · conv_lhs => unfold mmap_scan
        rw [if_pos h2n, if_pos h2a.symm, hup]
        exact e3
      · conv_lhs => unfold mmap_scan
        rw [if_pos h1n, if_pos h1a.symm, hdown]
        exact e1
  intro fuel
  cases fuel with
  | zero => rfl
  | succ f =>
    conv_lhs => unfold mmap_scan
    rw [if_pos hh, if_neg hha, if_neg hK]
    exact (key f).1

theorem mmap_link_none (s : kstate) (reg fuel a : Nat) (length : Int) (h0 : s.nregions ≠ 0)
    (hscan : mmap_scan s.heap s.head (PGROUNDDOWN (u32 (PGSIZE + length))) fuel s.head
      (if a = (s.heap s.head).addr then u32add a (PGROUNDDOWN (u32 (PGSIZE + length))) else a)
      = none) :
    mmap_link s reg fuel a length = none := by
  unfold mmap_link
  rw [if_neg h0]
  dsimp only
  rw [hscan]

/-- Claim C18, the code at `st_cycle`, a state reached from the empty process by calls of
`mmap`: the list of four regions is well formed, its second region starts at `0x80005000`,
above `KERNBASE`, and its third at `0x5000`.  With `length = 0x7FFFF000 > 0` the step
`PGROUNDDOWN(PGSIZE+length)` is `2^31` as a 32-bit word, the candidate alternates between
`0x5000` and `0x80005000`, each time meeting the start of a region that is not the last
before the `KERNBASE` test is reached, and `mmap` returns for no amount of fuel. -/
theorem mmap_loops_forever :
    isList st_cycle.heap st_cycle.head [100, 200, 300, 400] ∧ st_cycle.nregions = 4 ∧
    st_cycle.sz = 0x5000 ∧
    [100, 200, 300, 400].map (fun q => (st_cycle.heap q).addr)
      = [0x6000, 0x80005000, 0x5000, 0x8000] ∧
    500 ∉ [100, 200, 300, 400] ∧
    (0 : Int) < 0x7FFFF000 ∧ PGROUNDDOWN (u32 (PGSIZE + 0x7FFFF000)) = 0x80000000 ∧
    ¬ ∃ fuel, (mmap st_cycle 500 fuel 0 0x7FFFF000 PROT_WRITE MAP_ANONYMOUS (-1) 0).isSome := by
  refine ⟨by decide, by decide, by decide, by decide, by decide, by decide, by decide, ?_⟩
  rintro ⟨fuel, h⟩
  have e : mmap st_cycle 500 fuel 0 0x7FFFF000 PROT_WRITE MAP_ANONYMOUS (-1) 0
      = mmap_link st_cycle_reg 500 fuel (PGROUNDDOWN st_cycle.sz) 0x7FFFF000 :=
    mmap_anonymous_unfold st_cycle 500 fuel 0 0x7FFFF000 PROT_WRITE 0 (by decide)
  have hnone : mmap_link st_cycle_reg 500 fuel (PGROUNDDOWN st_cycle.sz) 0x7FFFF000 = none :=
    mmap_link_none st_cycle_reg 500 fuel _ _ (by decide)
      (mmap_scan_cycle st_cycle_reg.heap 100 0x80000000 0x5000 0x80005000 (by decide)
        (by decide) (by decide) (by decide) (by decide) (by decide) (by decide) (by decide)
        (by decide) (by decide) fuel)
  rw [e, hnone] at h
  exact absurd h (by decide)

/-! ## Lists whose regions all start below `KERNBASE` -/

/-- At a node that starts below `KERNBASE`, a candidate at or above `KERNBASE` ends the
loop at once. -/
theorem mmap_scan_high (heap : Nat → mmap_region) (head bump fuel node addr : Nat)
    (hnode : (heap node).addr < KERNBASE) (ha : KERNBASE ≤ addr) :
    ∃ res, mmap_scan heap head bump (fuel + 1) node addr = some res := by
  unfold mmap_scan
  by_cases h : (heap node).next ≠ 0
  · rw [if_pos h, if_neg (by omega), if_pos (by omega)]
    exact ⟨_, rfl⟩
  · rw [if_neg h]
    exact ⟨_, rfl⟩

/-- With the step `2^31` and every region starting below `KERNBASE`, a candidate below
`KERNBASE` walks down the list at most once: the first collision lifts it above `KERNBASE`,
where the next node ends the loop. -/
theorem mmap_scan_low_list (heap : Nat → mmap_region) (head : Nat)
    (hhn : (heap (heap head).next).addr < KERNBASE) :
    ∀ (rest : List Nat) (fuel node addr : Nat), isList heap node rest → rest ≠ [] →
      (∀ q ∈ rest, (heap q).addr < KERNBASE) → addr < KERNBASE → rest.length + 1 < fuel →
      ∃ res, mmap_scan heap head KERNBASE fuel node addr = some res := by
  have hK : KERNBASE = 2147483648 := rfl
  intro rest
  induction rest with
  | nil => intro _ _ _ _ h; exact absurd rfl h
  | cons x rest' ih =>
    intro fuel node addr hl _ hlow ha hf
    simp only [List.length_cons] at hf
    obtain ⟨f, rfl⟩ : ∃ f, fuel = f + 1 := ⟨fuel - 1, by omega⟩
    have hx : node = x := hl.1
    unfold mmap_scan
    by_cases h : (heap node).next ≠ 0
    · rw [if_pos h]
      by_cases hc : addr = (heap node).addr
      · rw [if_pos hc]
        obtain ⟨g, rfl⟩ : ∃ g, f = g + 1 := ⟨f - 1, by omega⟩
        refine mmap_scan_high heap head KERNBASE g _ _ hhn ?_
        unfold u32add
        rw [hK] at ha ⊢
        omega
      · rw [if_neg hc, if_neg (by omega)]
        have hl2 : isList heap (heap node).next rest' := by rw [hx]; exact hl.2.2
        have hne : rest' ≠ [] := by
          intro e
          rw [e] at hl2
          exact h hl2
        exact ih f _ addr hl2 hne (fun q hq => hlow q (List.mem_cons_of_mem _ hq)) ha
          (by omega)
    · rw [if_neg h]
      exact ⟨_, rfl⟩

theorem mmap_link_returns_low (s : kstate) (reg fuel a : Nat) (length : Int) (xs : List Nat)
    (hl : isList s.heap s.head xs) (hn : s.nregions ≠ 0 → xs ≠ [])
    (hlow : ∀ q ∈ xs, (s.heap q).addr < KERNBASE)
    (hb : PGROUNDDOWN (u32 (PGSIZE + length)) = KERNBASE)
    (hf : xs ≠ [] → xs.length + 1 < fuel) :
    ∃ r s', mmap_link s reg fuel a length = some (r, s') := by
  unfold mmap_link
  by_cases h0 : s.nregions = 0
  · rw [if_pos h0]
    exact ⟨_, _, rfl⟩
  · rw [if_neg h0]
    dsimp only
    rw [hb]
    have hscan : ∃ res, mmap_scan s.heap s.head KERNBASE fuel s.head
        (if a = (s.heap s.head).addr then u32add a KERNBASE else a) = some res := by
      generalize haddr : (if a = (s.heap s.head).addr then u32add a KERNBASE else a) = addr1
      cases xs with
      | nil => exact absurd rfl (hn h0)
      | cons x rest0 =>
        have hx : s.head = x := hl.1
        have hf := hf (by simp)
        have hl' : isList s.heap s.head (s.head :: rest0) := by rw [hx] at hl ⊢; exact hl
        have hhead : (s.heap s.head).addr < KERNBASE := hlow s.head (by rw [hx]; simp)
        by_cases hlt : addr1 < KERNBASE
        · cases rest0 with
          | nil =>
            have hz : (s.heap s.head).next = 0 := hl'.2.2
            obtain ⟨f, rfl⟩ : ∃ f, fuel = f + 1 := ⟨fuel - 1, by omega⟩
            unfold mmap_scan
            rw [if_neg (by simp [hz])]
            exact ⟨_, rfl⟩
          | cons n1 t =>
            have hn1 : (s.heap s.head).next = n1 := hl'.2.2.1
            refine mmap_scan_low_list s.heap s.head ?_ (s.head :: n1 :: t) fuel s.head addr1
              hl' (by simp) ?_ hlt (by simpa using hf)
            · rw [hn1]
              exact hlow n1 (by simp)
            · intro q hq
              exact hlow q (by rw [← hx]; exact hq)
        · obtain ⟨f, rfl⟩ : ∃ f, fuel = f + 1 := ⟨fuel - 1, by omega⟩
          exact mmap_scan_high s.heap s.head KERNBASE f s.head addr1 hhead (by omega)
    obtain ⟨res, hres⟩ := hscan
    rw [hres]
    cases res with
    | none => exact ⟨_, _, rfl⟩
    | some pr =>
      obtain ⟨node, a2⟩ := pr
      exact ⟨_, _, rfl⟩

/-- Termination of `mmap` when every region starts below `KERNBASE`: on a well-formed list
all of whose regions start below `KERNBASE`, with a block from `kmalloc` that is not in the
list and a size counter that is a 32-bit value, `mmap` returns (an address or `(void*)-1`)
for every `length > 0` in the range of `int`, also when `PGSIZE + length` overflows. -/
theorem mmap_terminates_below_kernbase (s : kstate) (reg fuel hint : Nat)
    (length prot flags fd offset : Int) (xs : List Nat)
    (hl : isList s.heap s.head xs) (hn : s.nregions ≠ 0 → xs ≠ []) (hfresh : reg ∉ xs)
    (hsz : s.sz < 4294967296) (hlen : 0 < length) (hrange : length < 2147483648)
    (hlow : ∀ q ∈ xs, (s.heap q).addr < KERNBASE)
    (hf : (2 * KERNBASE + 4) * xs.length < fuel) :
    ∃ r s', mmap s reg fuel hint length prot flags fd offset = some (r, s') := by
  by_cases hfit : PGSIZE + length < 2147483648
  · have hbump : u32 (PGSIZE + length) = (PGSIZE + length).toNat := by
      unfold u32
      rw [Int.emod_eq_of_lt (by unfold PGSIZE; omega) (by omega)]
    have hb0 : 0 < PGROUNDDOWN (u32 (PGSIZE + length)) := by
      rw [hbump]
      unfold PGROUNDDOWN PGSIZE at *
      omega
    have hbK : PGROUNDDOWN (u32 (PGSIZE + length)) < KERNBASE := by
      rw [hbump]
      unfold PGROUNDDOWN PGSIZE KERNBASE at *
      omega
    rcases mmap_cases s reg fuel hint length prot flags fd offset with
      ⟨s1, h1, -, -⟩ | ⟨s2, h2, -, ⟨hh, hnr, hheap, -⟩, -⟩
    · exact ⟨_, _, h1⟩
    · rw [h2]
      have hq : ∀ q ∈ xs, s2.heap q = s.heap q := fun q hq => hheap q (fun e => hfresh (e ▸ hq))
      refine mmap_link_returns s2 reg fuel _ length xs ?_ (hnr ▸ hn) ?_ hb0 hbK hf
      · rw [hh]
        exact isList_frame xs _ hl (fun q h => by rw [hq q h])
      · unfold PGROUNDDOWN
        omega
  · have hbump : u32 (PGSIZE + length) = (PGSIZE + length).toNat := by
      unfold u32
      rw [Int.emod_eq_of_lt (by unfold PGSIZE; omega) (by unfold PGSIZE; omega)]
    have hb : PGROUNDDOWN (u32 (PGSIZE + length)) = KERNBASE := by
      rw [hbump]
      unfold PGROUNDDOWN PGSIZE KERNBASE at *
      omega
    rcases mmap_cases s reg fuel hint length prot flags fd offset with
      ⟨s1, h1, -, -⟩ | ⟨s2, h2, -, ⟨hh, hnr, hheap, -⟩, -⟩
    · exact ⟨_, _, h1⟩
    · rw [h2]
      have hq : ∀ q ∈ xs, s2.heap q = s.heap q := fun q hq => hheap q (fun e => hfresh (e ▸ hq))
      have hK : KERNBASE = 2147483648 := rfl
      refine mmap_link_returns_low s2 reg fuel _ length xs ?_ (hnr ▸ hn) ?_ hb ?_
      · rw [hh]
        exact isList_frame xs _ hl (fun q h => by rw [hq q h])
      · intro q h
        rw [hq q h]
        exact hlow q h
      · intro hne
        have hpos : 0 < xs.length := List.length_pos.mpr hne
        rw [hK] at hf
        omega

/-! ## Instances of the later theorems at concrete states -/

/-- The region of `0x1900` bytes at `0x4000` in `st_file_region` and the address `0x5fff`,
which lies in its second page. -/
theorem covers_iff_within_pages_witness :
    (st_file_region.heap 100).addr % PGSIZE = 0 ∧ 0 < (st_file_region.heap 100).len ∧
    (st_file_region.heap 100).addr + (st_file_region.heap 100).len < 4294967296 ∧
    (covers st_file_region (PGROUNDDOWN 0x5fff) 100 ↔
      ((st_file_region.heap 100).addr ≤ 0x5fff ∧
        0x5fff < (st_file_region.heap 100).addr +
          PGSIZE * (((st_file_region.heap 100).len + PGSIZE - 1) / PGSIZE))) :=
  ⟨by decide, by decide, by decide,
    covers_iff_within_pages st_file_region 100 0x5fff (by decide) (by decide) (by decide)⟩

/-- The second `mmap` of the chain `st_empty`, `st_first`, `st_second`. -/
theorem mmap_appends_region_witness :
    isList st_first.heap st_first.head [100] ∧ (st_first.nregions = 0 ↔ [100] = []) ∧
    200 ∉ [100] ∧
    mmap st_first 200 1 0 12288 PROT_WRITE MAP_ANONYMOUS (-1) 0 = some (0x5000, st_second) ∧
    0x5000 ≠ MAP_FAILED ∧
    st_second.nregions = st_first.nregions + 1 ∧
    isList st_second.heap st_second.head ([100] ++ [200]) ∧
    same_fields (st_second.heap 100) (st_first.heap 100) := by
  have h : mmap st_first 200 1 0 12288 PROT_WRITE MAP_ANONYMOUS (-1) 0
      = some (0x5000, st_second) := rfl
  obtain ⟨e1, e2, -, -, -, e6⟩ := mmap_appends_region st_first 200 1 0 12288 PROT_WRITE
    MAP_ANONYMOUS (-1) 0 [100] 0x5000 st_second (by decide) (by decide) (by decide) h
    (by decide)
  exact ⟨by decide, by decide, by decide, h, by decide, e1, e2, e6 100 (by simp)⟩

/-- The chain `st_first`, `mmap(12288)`, `munmap(0x5000, 12288)`. -/
theorem mmap_munmap_round_trip_witness :
    isList st_first.heap st_first.head [100] ∧ (st_first.nregions ≠ 0 → [100] ≠ []) ∧
    0 ≤ st_first.nregions ∧ 200 ∉ [100] ∧ (0 : Int) < 12288 ∧
    (st_first.sz : Int) + 12288 < 4294967296 ∧
    mmap st_first 200 1 0 12288 PROT_WRITE MAP_ANONYMOUS (-1) 0 = some (0x5000, st_second) ∧
    0x5000 ≠ MAP_FAILED ∧ 0x5000 < KERNBASE ∧
    (∀ q ∈ [100], ¬ ((st_first.heap q).addr = 0x5000 ∧ (st_first.heap q).len = u32 12288)) ∧
    ([100] ++ [200]).length ≤ 2 ∧
    ∃ r s'', munmap st_second 2 0x5000 (u32 12288) = some (r, s'') ∧ s''.sz = st_first.sz ∧
      s''.nregions = st_first.nregions := by
  have h : mmap st_first 200 1 0 12288 PROT_WRITE MAP_ANONYMOUS (-1) 0
      = some (0x5000, st_second) := rfl
  exact ⟨by decide, by decide, by decide, by decide, by decide, by decide, h, by decide,
    by decide, by decide, by decide,
    mmap_munmap_round_trip st_first 200 1 2 0 12288 PROT_WRITE 0 [100] 0x5000 st_second
      (by decide) (by decide) (by decide) (by decide) (by decide) (by decide) h (by decide)
      (by decide) (by decide) (by decide)⟩

/-- An anonymous `mmap` of 100 bytes in `st_three`, with fuel above the bound: the
candidate `0x4000` meets the start of the head, then inside the loop the start of the second
region, then after the loop the start of the last one. -/
theorem mmap_terminates_witness :
    isList st_three.heap st_three.head [100, 200, 300] ∧
    (st_three.nregions ≠ 0 → [100, 200, 300] ≠ []) ∧ 400 ∉ [100, 200, 300] ∧
    st_three.sz < 4294967296 ∧ (0 : Int) < 100 ∧ (PGSIZE : Int) + 100 < 2147483648 ∧
    (2 * KERNBASE + 4) * [100, 200, 300].length < 12884901901 ∧
    (mmap st_three 400 4 0 100 PROT_WRITE MAP_ANONYMOUS (-1) 0).map (fun r => r.1)
      = some 0x7000 ∧
    ∃ r s', mmap st_three 400 12884901901 0 100 PROT_WRITE MAP_ANONYMOUS (-1) 0 = some (r, s') :=
  ⟨by decide, by decide, by decide, by decide, by decide, by decide, by decide, by decide,
    mmap_terminates st_three 400 12884901901 0 100 PROT_WRITE MAP_ANONYMOUS (-1) 0
      [100, 200, 300] (by decide) (by decide) (by decide) (by decide) (by decide) (by decide)
      (by decide)⟩

/-- An anonymous `mmap` of `0x7FFFF000` bytes in `st_three`, whose regions all start below
`KERNBASE`: the step overflows to `2^31`, the candidate leaves the head for `0x80004000`
and the call fails through the `KERNBASE` test. -/
theorem mmap_terminates_below_kernbase_witness :
    isList st_three.heap st_three.head [100, 200, 300] ∧
    (st_three.nregions ≠ 0 → [100, 200, 300] ≠ []) ∧ 400 ∉ [100, 200, 300] ∧
    st_three.sz < 4294967296 ∧ (0 : Int) < 0x7FFFF000 ∧ (0x7FFFF000 : Int) < 2147483648 ∧
    (∀ q ∈ [100, 200, 300], (st_three.heap q).addr < KERNBASE) ∧
    (2 * KERNBASE + 4) * [100, 200, 300].length < 12884901901 ∧
    (mmap st_three 400 4 0 0x7FFFF000 PROT_WRITE MAP_ANONYMOUS (-1) 0).map (fun r => r.1)
      = some MAP_FAILED ∧
    ∃ r s', mmap st_three 400 12884901901 0 0x7FFFF000 PROT_WRITE MAP_ANONYMOUS (-1) 0
      = some (r, s') :=
  ⟨by decide, by decide, by decide, by decide, by decide, by decide, by decide, by decide,
    by decide,
    mmap_terminates_below_kernbase st_three 400 12884901901 0 0x7FFFF000 PROT_WRITE
      MAP_ANONYMOUS (-1) 0 [100, 200, 300] (by decide) (by decide) (by decide) (by decide)
      (by decide) (by decide) (by decide) (by decide)⟩

end Xv6Mmap
